import Mathlib

/-!
# Verification of codex-temporal-go core components

Shallow embedding of the head-tail output buffer, the exec-session store,
the approval gate, the escalation detector, the plan parser and the
unified-exec handlers of the repository, with theorems checking the
natural-language specification against the code.

Bytes are modelled as natural numbers; Go byte slices become `List Nat`.
Go `int` values that are only ever non-negative in the claims considered
(byte counts, budgets) are modelled as `Nat`; values compared with
signed semantics (timestamps, yield times) are modelled as `Int`.
-/

namespace ExecSession

/-- State of `HeadTailBuffer` (src/internal/execsession/buffer.go).
The mutex is irrelevant to the sequential semantics and is dropped. -/
structure HeadTailBuffer where
  maxBytes : Nat
  headBudget : Nat
  tailBudget : Nat
  head : List (List Nat)
  tail : List (List Nat)
  headBytes : Nat
  tailBytes : Nat
  omitted : Nat
  totalEver : Nat
  deriving Repr, DecidableEq

/-- `NewHeadTailBuffer` (buffer.go lines 33-41). -/
def NewHeadTailBuffer (maxBytes : Nat) : HeadTailBuffer :=
  { maxBytes := maxBytes
    headBudget := maxBytes / 2
    tailBudget := maxBytes - maxBytes / 2
    head := []
    tail := []
    headBytes := 0
    tailBytes := 0
    omitted := 0
    totalEver := 0 }

/-- The loop body of `trimTailToBudget` (buffer.go lines 106-122): drop
`excess` bytes from the front of the tail chunks.  Returns the new tail
together with the number of bytes actually dropped (the code adds that
number to `omitted` and subtracts it from `tailBytes` as it goes). -/
def trimTailGo (excess : Nat) : List (List Nat) → List (List Nat) × Nat
  | [] => ([], 0)
  | front :: rest =>
    if excess = 0 then (front :: rest, 0)
    else if front.length ≤ excess then
      ((trimTailGo (excess - front.length) rest).1,
       front.length + (trimTailGo (excess - front.length) rest).2)
    else ((front.drop excess) :: rest, excess)

/-- `trimTailToBudget` (buffer.go lines 106-122). `excess` is
`tailBytes - tailBudget`; the Go loop does not run when it is `≤ 0`,
which the truncated subtraction reproduces. -/
def trimTailToBudget (b : HeadTailBuffer) : HeadTailBuffer :=
  let r := trimTailGo (b.tailBytes - b.tailBudget) b.tail
  { b with tail := r.1, tailBytes := b.tailBytes - r.2, omitted := b.omitted + r.2 }

/-- `pushToTail` (buffer.go lines 84-104). -/
def pushToTail (b : HeadTailBuffer) (chunk : List Nat) : HeadTailBuffer :=
  if b.tailBudget = 0 then
    { b with omitted := b.omitted + chunk.length }
  else if b.tailBudget ≤ chunk.length then
    -- Chunk alone reaches the tail budget: keep only the last tailBudget bytes.
    let kept := chunk.drop (chunk.length - b.tailBudget)
    let dropped := chunk.length - kept.length
    { b with
      omitted := b.omitted + b.tailBytes + dropped
      tail := [kept]
      tailBytes := kept.length }
  else
    trimTailToBudget
      { b with tailBytes := b.tailBytes + chunk.length, tail := b.tail ++ [chunk] }

/-- `pushUnlocked` (buffer.go lines 56-82).  The Go locals `remaining`,
`headPart` and `tailPart` are inlined. -/
def pushUnlocked (b : HeadTailBuffer) (chunk : List Nat) : HeadTailBuffer :=
  if b.maxBytes = 0 then
    { b with omitted := b.omitted + chunk.length }
  else if b.headBytes < b.headBudget then
    if chunk.length ≤ b.headBudget - b.headBytes then
      { b with headBytes := b.headBytes + chunk.length, head := b.head ++ [chunk] }
    else
      -- Split: part to head, remainder to tail.
      pushToTail
        (if 0 < (chunk.take (b.headBudget - b.headBytes)).length then
          { b with
            headBytes := b.headBytes + (chunk.take (b.headBudget - b.headBytes)).length
            head := b.head ++ [chunk.take (b.headBudget - b.headBytes)] }
         else b)
        (chunk.drop (b.headBudget - b.headBytes))
  else
    pushToTail b chunk

/-- `Push` (buffer.go lines 46-54): empty chunks are ignored entirely
(they do not even advance `totalEver`). -/
def Push (b : HeadTailBuffer) (chunk : List Nat) : HeadTailBuffer :=
  if chunk.length = 0 then b
  else pushUnlocked { b with totalEver := b.totalEver + chunk.length } chunk

/-- `toBytesUnlocked` (buffer.go lines 131-144). -/
def toBytesUnlocked (b : HeadTailBuffer) : List Nat :=
  if b.headBytes + b.tailBytes = 0 then []
  else b.head.flatten ++ b.tail.flatten

/-- `Snapshot` (buffer.go lines 125-129). -/
def Snapshot (b : HeadTailBuffer) : List Nat := toBytesUnlocked b

/-- `RetainedBytes` (buffer.go lines 147-151). -/
def RetainedBytes (b : HeadTailBuffer) : Nat := b.headBytes + b.tailBytes

/-- `OmittedBytes` (buffer.go lines 154-158). -/
def OmittedBytes (b : HeadTailBuffer) : Nat := b.omitted

/-- `TotalWritten` (buffer.go lines 161-165). -/
def TotalWritten (b : HeadTailBuffer) : Nat := b.totalEver

/-- `DrainChunks` (buffer.go lines 168-180): returns the retained chunks
and resets everything except `totalEver` (in particular `omitted` is reset). -/
def DrainChunks (b : HeadTailBuffer) : List (List Nat) × HeadTailBuffer :=
  (b.head ++ b.tail,
   { b with head := [], tail := [], headBytes := 0, tailBytes := 0, omitted := 0 })

/-- The last `n` bytes of `l`. -/
def lastN (n : Nat) (l : List Nat) : List Nat := l.drop (l.length - n)

example : Snapshot (Push (NewHeadTailBuffer 4) [1, 2, 3]) = [1, 2, 3] := by decide

example : Snapshot (Push (Push (NewHeadTailBuffer 4) [1, 2, 3]) [4, 5, 6]) = [1, 2, 5, 6] := by
  decide

example : OmittedBytes (Push (Push (NewHeadTailBuffer 4) [1, 2, 3]) [4, 5, 6]) = 2 := by decide

example :
    Snapshot (Push (Push (Push (NewHeadTailBuffer 5) [1]) [2, 3, 4, 5, 6]) [7, 8]) =
      [1, 2, 6, 7, 8] := by decide

lemma lastN_zero (l : List Nat) : lastN 0 l = [] := by
  simp [lastN]

lemma length_lastN (n : Nat) (l : List Nat) : (lastN n l).length = min n l.length := by
  simp [lastN]
  omega

/-- Invariant of the tail half of the buffer: `R` is the stream of bytes that
has been routed to the tail so far, `tb` the tail budget. -/
def TInv (R : List Nat) (tb : Nat) (tail : List (List Nat)) (tailBytes omitted : Nat) : Prop :=
  tailBytes = min R.length tb ∧ tail.flatten = lastN tailBytes R ∧ omitted = R.length - tailBytes

/-- Full buffer invariant relative to the concatenation `P` of all bytes ever
pushed. -/
def Inv (P : List Nat) (b : HeadTailBuffer) : Prop :=
  b.headBudget = b.maxBytes / 2 ∧
  b.tailBudget = b.maxBytes - b.maxBytes / 2 ∧
  b.totalEver = P.length ∧
  b.headBytes = min P.length b.headBudget ∧
  b.head.flatten = P.take b.headBytes ∧
  TInv (P.drop b.headBudget) b.tailBudget b.tail b.tailBytes b.omitted

lemma trimTailGo_spec :
    ∀ (tail : List (List Nat)) (excess : Nat), excess ≤ tail.flatten.length →
      (trimTailGo excess tail).2 = excess ∧
      (trimTailGo excess tail).1.flatten = tail.flatten.drop excess
  | [], e, h => by
    simp at h
    subst h
    simp [trimTailGo]
  | front :: rest, e, h => by
    rw [trimTailGo]
    by_cases h0 : e = 0
    · subst h0
      simp
    · rw [if_neg h0]
      by_cases h1 : front.length ≤ e
      · rw [if_pos h1]
        simp only [List.flatten_cons, List.length_append] at h
        obtain ⟨ih1, ih2⟩ := trimTailGo_spec rest (e - front.length) (by omega)
        constructor
        · show front.length + (trimTailGo (e - front.length) rest).2 = e
          rw [ih1]
          omega
        · show (trimTailGo (e - front.length) rest).1.flatten = _
          rw [ih2]
          simp only [List.flatten_cons]
          generalize hk : e - front.length = k
          rw [show e = front.length + k by omega, List.drop_append]
      · rw [if_neg h1]
        refine ⟨rfl, ?_⟩
        simp only [List.flatten_cons]
        rw [List.drop_append_of_le_length (by omega)]

lemma pushToTail_frame (b : HeadTailBuffer) (c : List Nat) :
    (pushToTail b c).head = b.head ∧ (pushToTail b c).headBytes = b.headBytes ∧
    (pushToTail b c).totalEver = b.totalEver ∧ (pushToTail b c).maxBytes = b.maxBytes ∧
    (pushToTail b c).headBudget = b.headBudget ∧ (pushToTail b c).tailBudget = b.tailBudget := by
  unfold pushToTail trimTailToBudget
  split
  · exact ⟨rfl, rfl, rfl, rfl, rfl, rfl⟩
  · split
    · exact ⟨rfl, rfl, rfl, rfl, rfl, rfl⟩
    · exact ⟨rfl, rfl, rfl, rfl, rfl, rfl⟩

lemma pushToTail_tinv {R : List Nat} {b : HeadTailBuffer} (c : List Nat)
    (h : TInv R b.tailBudget b.tail b.tailBytes b.omitted) :
    TInv (R ++ c) b.tailBudget (pushToTail b c).tail (pushToTail b c).tailBytes
      (pushToTail b c).omitted := by
  obtain ⟨hB, hJ, hO⟩ := h
  have htb_le : b.tailBytes ≤ R.length := by omega
  unfold pushToTail
  split
  · -- tailBudget = 0: all new bytes are omitted
    rename_i h0
    refine ⟨by simp [h0]; omega, ?_, ?_⟩
    · have : b.tailBytes = 0 := by omega
      rw [hJ, this, lastN_zero, lastN_zero]
    · simp only [List.length_append]
      omega
  · split
    · -- chunk alone reaches the tail budget: keep only its last tailBudget bytes
      rename_i h0 h1
      refine ⟨?_, ?_, ?_⟩
      · simp only [List.length_drop, List.length_append]
        omega
      · simp only [List.flatten_cons, List.flatten_nil, List.append_nil, List.length_drop]
        show c.drop (c.length - b.tailBudget) =
          lastN (c.length - (c.length - b.tailBudget)) (R ++ c)
        rw [show c.length - (c.length - b.tailBudget) = b.tailBudget by omega]
        unfold lastN
        rw [List.length_append,
          show R.length + c.length - b.tailBudget = R.length + (c.length - b.tailBudget) by omega,
          List.drop_append]
      · simp only [List.length_drop, List.length_append]
        omega
    · -- chunk appended, then the tail is trimmed back to its budget
      rename_i h0 h1
      have hlenJ : b.tail.flatten.length = b.tailBytes := by
        rw [hJ, length_lastN]; omega
      have hbound : b.tailBytes + c.length - b.tailBudget ≤ (b.tail ++ [c]).flatten.length := by
        rw [List.flatten_append]
        simp only [List.flatten_cons, List.flatten_nil, List.append_nil, List.length_append]
        omega
      have hspec := trimTailGo_spec (b.tail ++ [c]) (b.tailBytes + c.length - b.tailBudget) hbound
      unfold trimTailToBudget
      refine ⟨?_, ?_, ?_⟩
      · show b.tailBytes + c.length - (trimTailGo _ _).2 = _
        rw [hspec.1]
        simp only [List.length_append]
        omega
      · show (trimTailGo _ _).1.flatten = _
        rw [hspec.2, List.flatten_append]
        simp only [List.flatten_cons, List.flatten_nil, List.append_nil]
        rw [hJ]
        unfold lastN
        rw [← List.drop_append_of_le_length
            (show R.length - b.tailBytes ≤ R.length by omega), List.drop_drop,
          hspec.1]
        simp only [List.length_append]
        congr 1
        omega
      · show b.omitted + (trimTailGo _ _).2 = _
        rw [hspec.1]
        simp only [List.length_append]
        omega

/-- Pushing a chunk `d` to the tail preserves the full invariant, provided the
head-side facts already account for the new bytes. -/
lemma pushToTail_full_inv {Q : List Nat} {b : HeadTailBuffer} (d : List Nat)
    (hHB : b.headBudget = b.maxBytes / 2)
    (hTB : b.tailBudget = b.maxBytes - b.maxBytes / 2)
    (hT : b.totalEver = Q.length + d.length)
    (hhb : b.headBytes = min (Q.length + d.length) b.headBudget)
    (hhj : b.head.flatten = (Q ++ d).take b.headBytes)
    (htinv : TInv (Q.drop b.headBudget) b.tailBudget b.tail b.tailBytes b.omitted)
    (hQd : (Q ++ d).drop b.headBudget = Q.drop b.headBudget ++ d) :
    Inv (Q ++ d) (pushToTail b d) := by
  obtain ⟨f1, f2, f3, f4, f5, f6⟩ := pushToTail_frame b d
  have ht' := pushToTail_tinv d htinv
  refine ⟨?_, ?_, ?_, ?_, ?_, ?_⟩
  · rw [f5, f4]
    exact hHB
  · rw [f6, f4]
    exact hTB
  · rw [f3, List.length_append]
    exact hT
  · rw [f2, f5, List.length_append]
    exact hhb
  · rw [f1, f2]
    exact hhj
  · rw [f5, f6, hQd]
    exact ht'

lemma Push_inv {P : List Nat} {b : HeadTailBuffer} (c : List Nat) (h : Inv P b) :
    Inv (P ++ c) (Push b c) := by
  obtain ⟨hHB, hTB, hT, hhb, hhj, hTB2, hTJ, hTO⟩ := h
  by_cases hc : c.length = 0
  · rw [Push, if_pos hc, List.length_eq_zero.mp hc, List.append_nil]
    exact ⟨hHB, hTB, hT, hhb, hhj, hTB2, hTJ, hTO⟩
  · rw [Push, if_neg hc]
    unfold pushUnlocked
    dsimp only
    by_cases h0 : b.maxBytes = 0
    · rw [if_pos h0]
      have hb0 : b.headBudget = 0 := by omega
      have tb0 : b.tailBudget = 0 := by omega
      simp only [List.length_drop] at hTB2 hTO
      refine ⟨hHB, hTB, ?_, ?_, ?_, ?_, ?_, ?_⟩
      · show b.totalEver + c.length = (P ++ c).length
        simp [hT]
      · show b.headBytes = min (P ++ c).length b.headBudget
        simp only [List.length_append]
        omega
      · show b.head.flatten = (P ++ c).take b.headBytes
        have hz : b.headBytes = 0 := by omega
        rw [hhj, hz]
        simp
      · show b.tailBytes = min ((P ++ c).drop b.headBudget).length b.tailBudget
        simp only [List.length_drop, List.length_append]
        omega
      · show b.tail.flatten = lastN b.tailBytes ((P ++ c).drop b.headBudget)
        have ht0 : b.tailBytes = 0 := by omega
        rw [hTJ, ht0, lastN_zero, lastN_zero]
      · show b.omitted + c.length = ((P ++ c).drop b.headBudget).length - b.tailBytes
        simp only [List.length_drop, List.length_append]
        omega
    · rw [if_neg h0]
      by_cases h1 : b.headBytes < b.headBudget
      · rw [if_pos h1]
        have hPlen : P.length < b.headBudget := by omega
        have hhb' : b.headBytes = P.length := by omega
        have hdropP : P.drop b.headBudget = [] := List.drop_eq_nil_of_le (by omega)
        rw [hdropP] at hTB2 hTJ hTO
        by_cases h2 : c.length ≤ b.headBudget - b.headBytes
        · rw [if_pos h2]
          have hnil : (P ++ c).drop b.headBudget =
              [] := List.drop_eq_nil_of_le (by simp only [List.length_append]; omega)
          refine ⟨hHB, hTB, ?_, ?_, ?_, ?_, ?_, ?_⟩
          · show b.totalEver + c.length = (P ++ c).length
            simp [hT]
          · show b.headBytes + c.length = min (P ++ c).length b.headBudget
            simp only [List.length_append]
            omega
          · show (b.head ++ [c]).flatten = (P ++ c).take (b.headBytes + c.length)
            rw [List.flatten_append, hhj, hhb']
            simp only [List.flatten_cons, List.flatten_nil, List.append_nil, List.take_length]
            rw [show P.length + c.length = (P ++ c).length by simp, List.take_length]
          · show b.tailBytes = min ((P ++ c).drop b.headBudget).length b.tailBudget
            rw [hnil]
            exact hTB2
          · show b.tail.flatten = lastN b.tailBytes ((P ++ c).drop b.headBudget)
            rw [hnil]
            exact hTJ
          · show b.omitted = ((P ++ c).drop b.headBudget).length - b.tailBytes
            rw [hnil]
            exact hTO
        · rw [if_neg h2]
          have hlenTake : (c.take (b.headBudget - b.headBytes)).length =
              b.headBudget - b.headBytes := by
            simp only [List.length_take]
            omega
          rw [if_pos (by rw [hlenTake]; omega)]
          have hQhb : (P ++ c.take (b.headBudget - b.headBytes)).length = b.headBudget := by
            simp only [List.length_append, List.length_take]
            omega
          rw [show P ++ c =
            (P ++ c.take (b.headBudget - b.headBytes)) ++ c.drop (b.headBudget - b.headBytes) by
              rw [List.append_assoc, List.take_append_drop]]
          refine pushToTail_full_inv _ ?_ ?_ ?_ ?_ ?_ ?_ ?_
          · exact hHB
          · exact hTB
          · show b.totalEver + c.length = _ + _
            simp only [List.length_append, List.length_take, List.length_drop]
            omega
          · show b.headBytes + (c.take (b.headBudget - b.headBytes)).length = _
            simp only [List.length_append, List.length_take, List.length_drop]
            omega
          · show (b.head ++ [c.take (b.headBudget - b.headBytes)]).flatten = _
            rw [List.flatten_append, hhj, hhb']
            simp only [List.flatten_cons, List.flatten_nil, List.append_nil, List.take_length]
            rw [show P.length + (c.take (b.headBudget - P.length)).length =
                (P ++ c.take (b.headBudget - P.length)).length by simp,
              List.take_left]
          · show TInv ((P ++ c.take (b.headBudget - b.headBytes)).drop b.headBudget)
              b.tailBudget b.tail b.tailBytes b.omitted
            rw [List.drop_eq_nil_of_le (le_of_eq hQhb)]
            exact ⟨hTB2, hTJ, hTO⟩
          · exact List.drop_append_of_le_length (le_of_eq hQhb.symm)
      · rw [if_neg h1]
        have hble : b.headBudget ≤ P.length := by omega
        have hhb' : b.headBytes = b.headBudget := by omega
        refine pushToTail_full_inv _ ?_ ?_ ?_ ?_ ?_ ?_ ?_
        · exact hHB
        · exact hTB
        · show b.totalEver + c.length = P.length + c.length
          omega
        · show b.headBytes = min (P.length + c.length) b.headBudget
          omega
        · show b.head.flatten = (P ++ c).take b.headBytes
          rw [List.take_append_of_le_length (by omega)]
          exact hhj
        · exact ⟨hTB2, hTJ, hTO⟩
        · exact List.drop_append_of_le_length hble

lemma foldl_Push_inv (cs : List (List Nat)) :
    ∀ (P : List Nat) (b : HeadTailBuffer), Inv P b →
      Inv (P ++ cs.flatten) (cs.foldl Push b) := by
  induction cs with
  | nil =>
    intro P b h
    simpa using h
  | cons c cs ih =>
    intro P b h
    have h1 := Push_inv c h
    have h2 := ih (P ++ c) (Push b c) h1
    simpa [List.append_assoc] using h2

lemma NewHeadTailBuffer_inv (maxBytes : Nat) : Inv [] (NewHeadTailBuffer maxBytes) := by
  refine ⟨rfl, rfl, rfl, by simp [NewHeadTailBuffer], by simp [NewHeadTailBuffer], ?_, ?_, ?_⟩ <;>
    simp [NewHeadTailBuffer, TInv, lastN]

/-- The invariant holds of the buffer obtained by pushing any sequence of
chunks into a fresh buffer. -/
lemma buffer_inv (maxBytes : Nat) (cs : List (List Nat)) :
    Inv cs.flatten (cs.foldl Push (NewHeadTailBuffer maxBytes)) := by
  have h := foldl_Push_inv cs [] (NewHeadTailBuffer maxBytes) (NewHeadTailBuffer_inv maxBytes)
  simpa using h

lemma Push_maxBytes (b : HeadTailBuffer) (c : List Nat) : (Push b c).maxBytes = b.maxBytes := by
  rw [Push]
  split
  · rfl
  · unfold pushUnlocked
    dsimp only
    split
    · rfl
    · split
      · split
        · rfl
        · rw [(pushToTail_frame _ _).2.2.2.1]
          split <;> rfl
      · exact (pushToTail_frame _ _).2.2.2.1

lemma foldl_Push_maxBytes (cs : List (List Nat)) :
    ∀ b : HeadTailBuffer, (cs.foldl Push b).maxBytes = b.maxBytes := by
  induction cs with
  | nil => intro b; rfl
  | cons c cs ih =>
    intro b
    rw [List.foldl_cons, ih, Push_maxBytes]

lemma lastN_full {n : Nat} {l : List Nat} (h : l.length ≤ n) : lastN n l = l := by
  unfold lastN
  rw [show l.length - n = 0 by omega, List.drop_zero]

/-- Under the invariant, the retained tail bytes are always a suffix of the
whole pushed stream `P`, not just of its tail-routed part. -/
lemma tail_flatten_lastN {P : List Nat} {b : HeadTailBuffer} (h : Inv P b) :
    b.tail.flatten = lastN b.tailBytes P := by
  obtain ⟨hHB, hTB, hT, hhb, hhj, hTB2, hTJ, hTO⟩ := h
  by_cases ht0 : b.tailBytes = 0
  · rw [hTJ, ht0, lastN_zero, lastN_zero]
  · have hlen : b.tailBytes ≤ P.length - b.headBudget := by
      simp only [List.length_drop] at hTB2
      omega
    have hhble : b.headBudget < P.length := by
      simp only [List.length_drop] at hTB2
      omega
    rw [hTJ]
    unfold lastN
    rw [List.drop_drop, List.length_drop]
    congr 1
    omega

/-- Under the invariant, the snapshot is a prefix of the pushed stream
followed by a suffix of it. -/
lemma snapshot_of_inv {P : List Nat} {b : HeadTailBuffer} (h : Inv P b) :
    Snapshot b = P.take b.headBytes ++ lastN b.tailBytes P := by
  have htail := tail_flatten_lastN h
  obtain ⟨hHB, hTB, hT, hhb, hhj, hTB2, hTJ, hTO⟩ := h
  rw [Snapshot, toBytesUnlocked]
  split
  · rename_i hz
    have hb0 : b.headBytes = 0 := by omega
    have ht0 : b.tailBytes = 0 := by omega
    rw [hb0, ht0, lastN_zero]
    simp
  · rw [hhj, htail]

/-- C1 (amended): for every buffer capacity and every sequence of Push
operations, at every point RetainedBytes is at most maxBytes,
RetainedBytes + OmittedBytes equals TotalWritten, and while TotalWritten
has not exceeded maxBytes nothing is omitted and the snapshot is exactly the
concatenation of all pushed chunks.  (The original claim quantified over all
operation sequences; DrainChunks resets the retained and omitted counters
without resetting TotalWritten, so sequences containing DrainChunks are
excluded here.) -/
theorem headTail_push_invariants (maxBytes : Nat) (cs : List (List Nat)) :
    RetainedBytes (cs.foldl Push (NewHeadTailBuffer maxBytes)) ≤ maxBytes ∧
    RetainedBytes (cs.foldl Push (NewHeadTailBuffer maxBytes)) +
        OmittedBytes (cs.foldl Push (NewHeadTailBuffer maxBytes)) =
      TotalWritten (cs.foldl Push (NewHeadTailBuffer maxBytes)) ∧
    (TotalWritten (cs.foldl Push (NewHeadTailBuffer maxBytes)) ≤ maxBytes →
      OmittedBytes (cs.foldl Push (NewHeadTailBuffer maxBytes)) = 0 ∧
      Snapshot (cs.foldl Push (NewHeadTailBuffer maxBytes)) = cs.flatten) := by
  have hinv := buffer_inv maxBytes cs
  have hsnap := snapshot_of_inv hinv
  obtain ⟨hHB, hTB, hT, hhb, hhj, hTB2, hTJ, hTO⟩ := hinv
  have hM : (cs.foldl Push (NewHeadTailBuffer maxBytes)).maxBytes = maxBytes :=
    foldl_Push_maxBytes cs (NewHeadTailBuffer maxBytes)
  rw [hM] at hHB hTB
  simp only [List.length_drop] at hTB2 hTO
  refine ⟨?_, ?_, ?_⟩
  · show _ + _ ≤ maxBytes
    omega
  · show (cs.foldl Push (NewHeadTailBuffer maxBytes)).headBytes +
          (cs.foldl Push (NewHeadTailBuffer maxBytes)).tailBytes +
          (cs.foldl Push (NewHeadTailBuffer maxBytes)).omitted =
        (cs.foldl Push (NewHeadTailBuffer maxBytes)).totalEver
    omega
  · intro hle
    have hle' : (cs.foldl Push (NewHeadTailBuffer maxBytes)).totalEver ≤ maxBytes := hle
    rw [hT] at hle'
    constructor
    · show (cs.foldl Push (NewHeadTailBuffer maxBytes)).omitted = 0
      omega
    · rw [hsnap]
      have hsum : (cs.foldl Push (NewHeadTailBuffer maxBytes)).headBytes +
          (cs.foldl Push (NewHeadTailBuffer maxBytes)).tailBytes = cs.flatten.length := by
        omega
      rw [show lastN (cs.foldl Push (NewHeadTailBuffer maxBytes)).tailBytes cs.flatten =
          cs.flatten.drop (cs.foldl Push (NewHeadTailBuffer maxBytes)).headBytes by
            unfold lastN; congr 1; omega,
        List.take_append_drop]

/-- C1 counterexample: the claim quantifies over every sequence of operations,
but DrainChunks resets the retained and omitted counters while leaving
TotalWritten unchanged, so after a Push followed by a DrainChunks the equality
RetainedBytes + OmittedBytes = TotalWritten fails. -/
theorem headTail_drain_breaks_accounting :
    RetainedBytes (DrainChunks (Push (NewHeadTailBuffer 4) [7])).2 +
        OmittedBytes (DrainChunks (Push (NewHeadTailBuffer 4) [7])).2 ≠
      TotalWritten (DrainChunks (Push (NewHeadTailBuffer 4) [7])).2 := by
  decide

/-- Witness for the conditional part of the amended C1 theorem at a concrete
input. -/
theorem headTail_push_invariants_witness :
    RetainedBytes ([[1, 2, 3]].foldl Push (NewHeadTailBuffer 8)) ≤ 8 ∧
    RetainedBytes ([[1, 2, 3]].foldl Push (NewHeadTailBuffer 8)) +
        OmittedBytes ([[1, 2, 3]].foldl Push (NewHeadTailBuffer 8)) =
      TotalWritten ([[1, 2, 3]].foldl Push (NewHeadTailBuffer 8)) ∧
    (OmittedBytes ([[1, 2, 3]].foldl Push (NewHeadTailBuffer 8)) = 0 ∧
      Snapshot ([[1, 2, 3]].foldl Push (NewHeadTailBuffer 8)) = [1, 2, 3]) := by
  have h := headTail_push_invariants 8 [[1, 2, 3]]
  refine ⟨h.1, h.2.1, ?_⟩
  have h2 := h.2.2 (by decide)
  simpa using h2

/-- C2: once the total number of pushed bytes exceeds maxBytes, the snapshot
is exactly the first maxBytes / 2 bytes ever pushed followed by the last
maxBytes - maxBytes / 2 (that is, the ceiling of maxBytes / 2) bytes ever
pushed. -/
theorem headTail_overflow_snapshot (maxBytes : Nat) (cs : List (List Nat))
    (hover : maxBytes < cs.flatten.length) :
    Snapshot (cs.foldl Push (NewHeadTailBuffer maxBytes)) =
      cs.flatten.take (maxBytes / 2) ++ lastN (maxBytes - maxBytes / 2) cs.flatten := by
  have hinv := buffer_inv maxBytes cs
  have hsnap := snapshot_of_inv hinv
  obtain ⟨hHB, hTB, hT, hhb, hhj, hTB2, hTJ, hTO⟩ := hinv
  have hM : (cs.foldl Push (NewHeadTailBuffer maxBytes)).maxBytes = maxBytes :=
    foldl_Push_maxBytes cs (NewHeadTailBuffer maxBytes)
  rw [hM] at hHB hTB
  simp only [List.length_drop] at hTB2
  rw [hsnap, show (cs.foldl Push (NewHeadTailBuffer maxBytes)).headBytes = maxBytes / 2 by omega,
    show (cs.foldl Push (NewHeadTailBuffer maxBytes)).tailBytes = maxBytes - maxBytes / 2 by
      omega]

/-- Witness for C2 at a concrete input: capacity 4, six bytes pushed. -/
theorem headTail_overflow_snapshot_witness :
    4 < ([[1, 2, 3], [4, 5, 6]] : List (List Nat)).flatten.length ∧
    Snapshot ([[1, 2, 3], [4, 5, 6]].foldl Push (NewHeadTailBuffer 4)) =
      ([1, 2, 3, 4, 5, 6] : List Nat).take (4 / 2) ++
        lastN (4 - 4 / 2) [1, 2, 3, 4, 5, 6] := by
  refine ⟨by decide, ?_⟩
  have h := headTail_overflow_snapshot 4 [[1, 2, 3], [4, 5, 6]] (by decide)
  simpa using h

/-! ## Exec-session store (src/unnamed/part_002, package execsession)

The store is a map from process IDs to sessions.  Pruning only reads the
session's id, `LastUsed` timestamp and exit status, so sessions are
abstracted to those three fields (mirroring the local `candidate` struct of
`pruneOneLocked`).  The map itself is modelled as a list without duplicate
ids, in some iteration order. -/

/-- `MaxSessions` constant (part_002 line 193). -/
def MaxSessions : Nat := 64

/-- `ProtectedCount` constant (part_002 line 194). -/
def ProtectedCount : Nat := 8

/-- The data of a stored session that `pruneOneLocked` reads: the
`candidate` struct (part_002 lines 290-294).  `lastUsed` is the UnixNano
timestamp. -/
structure Candidate where
  id : String
  lastUsed : Int
  exited : Bool
  deriving Repr, DecidableEq

/-- Descending comparison used by the `sort.Slice` call (part_002
lines 309-311): `candidates[i].lastUsed > candidates[j].lastUsed` makes the
most recent session come first. -/
def luGE (a b : Candidate) : Prop := b.lastUsed ≤ a.lastUsed

instance : DecidableRel luGE := fun a b => inferInstanceAs (Decidable (b.lastUsed ≤ a.lastUsed))

instance : IsTotal Candidate luGE := ⟨fun a b => le_total b.lastUsed a.lastUsed⟩

instance : IsTrans Candidate luGE := ⟨fun _ _ _ h1 h2 => le_trans h2 h1⟩

/-- The sort in `pruneOneLocked` (part_002 lines 308-311): most recent
first.  Go's `sort.Slice` is unstable, so with tied `lastUsed` values the
result is one of several permutations; the insertion sort fixes one of them
and the theorems that depend on relative order assume distinct timestamps. -/
def sortByLastUsed (l : List Candidate) : List Candidate := l.insertionSort luGE

/-- The unprotected slice of the candidates (part_002 lines 313-321): when
more than `ProtectedCount` sessions exist, the most recent `ProtectedCount`
are dropped from consideration; otherwise all are candidates. -/
def unprotectedOf (l : List Candidate) : List Candidate :=
  if ProtectedCount < (sortByLastUsed l).length then (sortByLastUsed l).drop ProtectedCount
  else sortByLastUsed l

/-- Victim selection (part_002 lines 323-335): walk the unprotected slice
from the oldest end and pick the first exited session; if none, fall back to
the oldest unprotected session. -/
def pickVictim (u : List Candidate) : Option Candidate :=
  match u.reverse.find? (fun c => c.exited) with
  | some v => some v
  | none => u.getLast?

/-- `pruneOneLocked` (part_002 lines 289-344) restricted to the session set:
the victim is closed and deleted from the map. -/
def pruneOneLocked (l : List Candidate) : List Candidate :=
  match pickVictim (unprotectedOf l) with
  | some v => l.filter (fun x => x.id != v.id)
  | none => l

/-- The map insert `s.sessions[session.ProcessID] = session` (part_002
line 238): replaces any session stored under the same id. -/
def storeInsertRaw (l : List Candidate) (s : Candidate) : List Candidate :=
  l.filter (fun x => x.id != s.id) ++ [s]

/-- `Store.Store` (part_002 lines 234-244): insert, then prune once when the
map exceeds `MaxSessions`. -/
def storeStore (l : List Candidate) (s : Candidate) : List Candidate :=
  if MaxSessions < (storeInsertRaw l s).length then pruneOneLocked (storeInsertRaw l s)
  else storeInsertRaw l s

/-- `Store.Remove` (part_002 lines 259-265). -/
def storeRemove (l : List Candidate) (id : String) : List Candidate :=
  l.filter (fun x => x.id != id)

/-- Store operations of the claim.  `Get` (part_002 lines 247-256) does not
modify the session set (despite its doc comment it does not update
`LastUsed`), so it is the identity on the state. -/
inductive StoreOp : Type
  | store (s : Candidate)
  | get (id : String)
  | remove (id : String)

/-- One step of the store state machine. -/
def applyOp (l : List Candidate) : StoreOp → List Candidate
  | .store s => storeStore l s
  | .get _ => l
  | .remove id => storeRemove l id

/-- Running a sequence of operations from the empty store `NewStore`
(part_002 lines 212-217). -/
def runOps (ops : List StoreOp) : List Candidate := ops.foldl applyOp []

lemma filter_length_lt_of_mem {l : List Candidate} {v : Candidate} (hv : v ∈ l) :
    (l.filter (fun x => x.id != v.id)).length < l.length := by
  induction l with
  | nil => cases hv
  | cons a l ih =>
    rw [List.filter_cons]
    by_cases ha : (a.id != v.id) = true
    · rw [if_pos ha]
      rcases List.mem_cons.mp hv with h | h
      · subst h
        simp at ha
      · have := ih h
        simp only [List.length_cons]
        omega
    · rw [if_neg ha]
      have := List.length_filter_le (fun x => x.id != v.id) l
      simp only [List.length_cons]
      omega

lemma sortByLastUsed_perm (l : List Candidate) : List.Perm (sortByLastUsed l) l :=
  List.perm_insertionSort luGE l

lemma sortByLastUsed_sorted (l : List Candidate) : List.Sorted luGE (sortByLastUsed l) :=
  List.sorted_insertionSort luGE l

lemma unprotectedOf_sublist (l : List Candidate) :
    (unprotectedOf l).Sublist (sortByLastUsed l) := by
  unfold unprotectedOf
  split
  · exact List.drop_sublist _ _
  · exact List.Sublist.refl _

lemma unprotectedOf_sorted (l : List Candidate) : List.Sorted luGE (unprotectedOf l) :=
  List.Pairwise.sublist (unprotectedOf_sublist l) (sortByLastUsed_sorted l)

lemma unprotectedOf_ne_nil {l : List Candidate} (hl : l ≠ []) : unprotectedOf l ≠ [] := by
  have hlen : (sortByLastUsed l).length = l.length := (sortByLastUsed_perm l).length_eq
  have hpos : 0 < l.length := List.length_pos.mpr hl
  have hPC : ProtectedCount = 8 := rfl
  unfold unprotectedOf
  split
  · rename_i hgt
    intro hnil
    have := congrArg List.length hnil
    simp only [List.length_drop, List.length_nil] at this
    omega
  · intro hnil
    have := congrArg List.length hnil
    simp only [List.length_nil] at this
    omega

lemma mem_of_getLast?_eq_some :
    ∀ {l : List Candidate} {v : Candidate}, l.getLast? = some v → v ∈ l := by
  intro l
  induction l with
  | nil => intro v h; cases h
  | cons a t ih =>
    intro v h
    cases t with
    | nil =>
      rw [List.getLast?_singleton] at h
      cases h
      exact List.mem_singleton_self a
    | cons b t =>
      rw [List.getLast?_cons_cons] at h
      exact List.mem_cons_of_mem a (ih h)

lemma pickVictim_isSome {u : List Candidate} (hu : u ≠ []) : ∃ v, pickVictim u = some v := by
  unfold pickVictim
  cases hfind : u.reverse.find? (fun c => c.exited) with
  | some v => exact ⟨v, rfl⟩
  | none =>
    cases hlast : u.getLast? with
    | some v => exact ⟨v, rfl⟩
    | none => exact absurd (List.getLast?_eq_none_iff.mp hlast) hu

lemma pickVictim_mem {u : List Candidate} {v : Candidate} (hv : pickVictim u = some v) :
    v ∈ u := by
  unfold pickVictim at hv
  cases hfind : u.reverse.find? (fun c => c.exited) with
  | some w =>
    rw [hfind] at hv
    cases hv
    exact List.mem_reverse.mp (List.mem_of_find?_eq_some hfind)
  | none =>
    rw [hfind] at hv
    exact mem_of_getLast?_eq_some hv

/-- In an ascending (oldest last used first) list, `find?` returns an exited
candidate no more recently used than any other exited candidate. -/
lemma find?_exited_min :
    ∀ {w : List Candidate},
      List.Pairwise (fun a b : Candidate => a.lastUsed ≤ b.lastUsed) w →
      ∀ {v : Candidate}, w.find? (fun c => c.exited) = some v →
        v.exited = true ∧ ∀ c ∈ w, c.exited = true → v.lastUsed ≤ c.lastUsed := by
  intro w
  induction w with
  | nil => intro _ v hv; cases hv
  | cons a t ih =>
    intro hw v hv
    by_cases ha : a.exited = true
    · rw [List.find?_cons_of_pos t ha] at hv
      cases hv
      refine ⟨ha, ?_⟩
      intro c hc _
      rcases List.mem_cons.mp hc with h | h
      · rw [h]
      · exact (List.pairwise_cons.mp hw).1 c h
    · rw [List.find?_cons_of_neg t ha] at hv
      obtain ⟨hex, hmin⟩ := ih (List.pairwise_cons.mp hw).2 hv
      refine ⟨hex, ?_⟩
      intro c hc hcex
      rcases List.mem_cons.mp hc with h | h
      · rw [h] at hcex
        exact absurd hcex ha
      · exact hmin c h hcex

/-- In a descending list, the last element is no more recently used than any
element. -/
lemma getLast?_min :
    ∀ {u : List Candidate}, List.Pairwise luGE u →
      ∀ {v : Candidate}, u.getLast? = some v → ∀ c ∈ u, v.lastUsed ≤ c.lastUsed := by
  intro u
  induction u with
  | nil => intro _ v hv; cases hv
  | cons a t ih =>
    intro hu v hv c hc
    cases t with
    | nil =>
      rw [List.getLast?_singleton] at hv
      cases hv
      rcases List.mem_cons.mp hc with h | h
      · rw [h]
      · cases h
    | cons b t =>
      rw [List.getLast?_cons_cons] at hv
      have hvm : v ∈ b :: t := mem_of_getLast?_eq_some hv
      rcases List.mem_cons.mp hc with h | h
      · rw [h]
        exact (List.pairwise_cons.mp hu).1 v hvm
      · exact ih (List.pairwise_cons.mp hu).2 hv c h

/-- Victim selection: on a non-empty descending candidate list, a victim is
always found; it is the least-recently-used exited candidate when one
exists, and the least-recently-used candidate overall otherwise. -/
lemma pickVictim_spec {u : List Candidate} (hu : List.Pairwise luGE u) (hne : u ≠ []) :
    ∃ v, pickVictim u = some v ∧ v ∈ u ∧
      ((∃ c ∈ u, c.exited = true) →
        v.exited = true ∧ ∀ c ∈ u, c.exited = true → v.lastUsed ≤ c.lastUsed) ∧
      ((∀ c ∈ u, c.exited = false) → ∀ c ∈ u, v.lastUsed ≤ c.lastUsed) := by
  obtain ⟨v, hv⟩ := pickVictim_isSome hne
  refine ⟨v, hv, pickVictim_mem hv, ?_, ?_⟩
  · intro hex
    unfold pickVictim at hv
    cases hfind : u.reverse.find? (fun c => c.exited) with
    | some w =>
      rw [hfind] at hv
      cases hv
      have hrev : List.Pairwise (fun a b : Candidate => a.lastUsed ≤ b.lastUsed) u.reverse :=
        List.pairwise_reverse.mpr hu
      obtain ⟨hx, hmin⟩ := find?_exited_min hrev hfind
      exact ⟨hx, fun c hc hcex => hmin c (List.mem_reverse.mpr hc) hcex⟩
    | none =>
      obtain ⟨c, hc, hcex⟩ := hex
      have := List.find?_eq_none.mp hfind c (List.mem_reverse.mpr hc)
      simp only [hcex] at this
      exact absurd trivial this
  · intro hall c hc
    unfold pickVictim at hv
    cases hfind : u.reverse.find? (fun c => c.exited) with
    | some w =>
      rw [hfind] at hv
      cases hv
      have hvex := List.find?_some hfind
      have hvm : v ∈ u := List.mem_reverse.mp (List.mem_of_find?_eq_some hfind)
      rw [hall v hvm] at hvex
      cases hvex
    | none =>
      rw [hfind] at hv
      exact getLast?_min hu hv c hc

/-- With pairwise-distinct timestamps, the victim is strictly older than at
least `ProtectedCount` sessions in the store: none of the `ProtectedCount`
most recently used sessions is the victim. -/
lemma victim_strictly_older {l : List Candidate} {v : Candidate}
    (hlen : ProtectedCount < (sortByLastUsed l).length)
    (hv : v ∈ (sortByLastUsed l).drop ProtectedCount)
    (hnd : (l.map Candidate.lastUsed).Nodup) :
    ProtectedCount ≤ (l.filter (fun x => v.lastUsed < x.lastUsed)).length := by
  have hperm := sortByLastUsed_perm l
  have hfl : ((sortByLastUsed l).filter (fun x => v.lastUsed < x.lastUsed)).length =
      (l.filter (fun x => v.lastUsed < x.lastUsed)).length :=
    (hperm.filter _).length_eq
  have hsplit := (List.take_append_drop ProtectedCount (sortByLastUsed l)).symm
  have hsorted := sortByLastUsed_sorted l
  have hcross :
      ∀ a ∈ (sortByLastUsed l).take ProtectedCount,
        ∀ b ∈ (sortByLastUsed l).drop ProtectedCount, luGE a b := by
    have := hsorted
    rw [hsplit] at this
    exact (List.pairwise_append.mp this).2.2
  have hnd' : ((sortByLastUsed l).map Candidate.lastUsed).Nodup :=
    ((hperm.map Candidate.lastUsed).nodup_iff).mpr hnd
  have hdisj :
      ∀ a ∈ (sortByLastUsed l).take ProtectedCount, a.lastUsed ≠ v.lastUsed := by
    intro a ha
    have hmap : ((sortByLastUsed l).map Candidate.lastUsed) =
        ((sortByLastUsed l).take ProtectedCount).map Candidate.lastUsed ++
        ((sortByLastUsed l).drop ProtectedCount).map Candidate.lastUsed := by
      rw [← List.map_append, List.take_append_drop]
    rw [hmap] at hnd'
    have hd := (List.nodup_append.mp hnd').2.2
    intro heq
    exact hd (List.mem_map_of_mem Candidate.lastUsed ha)
      (heq ▸ List.mem_map_of_mem Candidate.lastUsed hv)
  have hall : ∀ a ∈ (sortByLastUsed l).take ProtectedCount,
      (fun x => decide (v.lastUsed < x.lastUsed)) a = true := by
    intro a ha
    have h1 : v.lastUsed ≤ a.lastUsed := hcross a ha v hv
    have h2 := hdisj a ha
    simp only [decide_eq_true_eq]
    omega
  have htake : (((sortByLastUsed l).take ProtectedCount).filter
      (fun x => v.lastUsed < x.lastUsed)).length = ProtectedCount := by
    rw [List.filter_eq_self.mpr hall]
    simp only [List.length_take]
    omega
  have hsum : ((sortByLastUsed l).filter (fun x => v.lastUsed < x.lastUsed)).length =
      (((sortByLastUsed l).take ProtectedCount).filter
        (fun x => v.lastUsed < x.lastUsed)).length +
      (((sortByLastUsed l).drop ProtectedCount).filter
        (fun x => v.lastUsed < x.lastUsed)).length := by
    conv_lhs => rw [hsplit]
    rw [List.filter_append, List.length_append]
  omega

lemma pruneOneLocked_length_lt {l : List Candidate} (hl : l ≠ []) :
    (pruneOneLocked l).length < l.length := by
  unfold pruneOneLocked
  have hne := unprotectedOf_ne_nil hl
  obtain ⟨v, hv⟩ := pickVictim_isSome hne
  rw [hv]
  have hvm : v ∈ l := by
    have h1 : v ∈ unprotectedOf l := pickVictim_mem hv
    have h2 := (unprotectedOf_sublist l).subset h1
    exact (sortByLastUsed_perm l).mem_iff.mp h2
  exact filter_length_lt_of_mem hvm

lemma storeStore_length {l : List Candidate} {s : Candidate} (h : l.length ≤ MaxSessions) :
    (storeStore l s).length ≤ MaxSessions := by
  have hins : (storeInsertRaw l s).length ≤ l.length + 1 := by
    unfold storeInsertRaw
    rw [List.length_append]
    have := List.length_filter_le (fun x => x.id != s.id) l
    simp only [List.length_cons, List.length_nil]
    omega
  unfold storeStore
  split
  · rename_i hgt
    have hne : storeInsertRaw l s ≠ [] := by
      intro h0
      rw [h0] at hgt
      simp only [List.length_nil] at hgt
      exact absurd hgt (by simp [MaxSessions])
    have := pruneOneLocked_length_lt hne
    omega
  · rename_i hle
    omega

/-- The store never holds more than MaxSessions sessions, over any sequence
of operations from the empty store. -/
lemma runOps_length (ops : List StoreOp) : (runOps ops).length ≤ MaxSessions := by
  suffices h : ∀ l : List Candidate,
      l.length ≤ MaxSessions → (ops.foldl applyOp l).length ≤ MaxSessions from
    h [] (by simp [MaxSessions])
  induction ops with
  | nil =>
    intro l h
    simpa using h
  | cons op ops ih =>
    intro l h
    rw [List.foldl_cons]
    apply ih
    cases op with
    | store s => exact storeStore_length h
    | get i => exact h
    | remove i =>
      show (storeRemove l i).length ≤ MaxSessions
      unfold storeRemove
      have := List.length_filter_le (fun x => x.id != i) l
      omega

/-- Full victim specification of one pruning pass on a store with more than
`ProtectedCount` sessions and distinct timestamps. -/
lemma pruneOne_victim_spec {l : List Candidate}
    (hlen : ProtectedCount < l.length)
    (hnd : (l.map Candidate.lastUsed).Nodup) :
    ∃ v, pickVictim (unprotectedOf l) = some v ∧
      pruneOneLocked l = l.filter (fun x => x.id != v.id) ∧
      v ∈ unprotectedOf l ∧
      ProtectedCount ≤ (l.filter (fun x => v.lastUsed < x.lastUsed)).length ∧
      ((∃ c ∈ unprotectedOf l, c.exited = true) →
        v.exited = true ∧ ∀ c ∈ unprotectedOf l, c.exited = true → v.lastUsed ≤ c.lastUsed) ∧
      ((∀ c ∈ unprotectedOf l, c.exited = false) →
        ∀ c ∈ unprotectedOf l, v.lastUsed ≤ c.lastUsed) := by
  have hl : l ≠ [] := by
    intro h0
    rw [h0] at hlen
    simp only [List.length_nil] at hlen
    omega
  obtain ⟨v, hv, hvm, hpref, hfall⟩ := pickVictim_spec (unprotectedOf_sorted l)
    (unprotectedOf_ne_nil hl)
  have hsortlen : ProtectedCount < (sortByLastUsed l).length := by
    rw [(sortByLastUsed_perm l).length_eq]
    exact hlen
  have hunprot : unprotectedOf l = (sortByLastUsed l).drop ProtectedCount := by
    unfold unprotectedOf
    rw [if_pos hsortlen]
  refine ⟨v, hv, ?_, hvm, ?_, hpref, hfall⟩
  · unfold pruneOneLocked
    rw [hv]
  · exact victim_strictly_older hsortlen (hunprot ▸ hvm) hnd

/-- C3: over every sequence of Store/Get/Remove operations the session count
never exceeds MaxSessions = 64; when Store triggers eviction (the insert
pushes the store above MaxSessions) and the LastUsed timestamps are
pairwise distinct, the victim exists, it is the session deleted, it is
strictly older than at least ProtectedCount = 8 sessions (so none of the 8
most-recently-used sessions is evicted), and among the unprotected sessions
the least-recently-used exited session is evicted when one exists, otherwise
the least-recently-used unprotected session. -/
theorem execStore_invariants :
    (∀ ops : List StoreOp, (runOps ops).length ≤ MaxSessions) ∧
    (∀ (l : List Candidate) (s : Candidate),
      MaxSessions < (storeInsertRaw l s).length →
      ((storeInsertRaw l s).map Candidate.lastUsed).Nodup →
      ∃ v, pickVictim (unprotectedOf (storeInsertRaw l s)) = some v ∧
        storeStore l s = (storeInsertRaw l s).filter (fun x => x.id != v.id) ∧
        v ∈ unprotectedOf (storeInsertRaw l s) ∧
        ProtectedCount ≤ ((storeInsertRaw l s).filter
          (fun x => v.lastUsed < x.lastUsed)).length ∧
        ((∃ c ∈ unprotectedOf (storeInsertRaw l s), c.exited = true) →
          v.exited = true ∧
          ∀ c ∈ unprotectedOf (storeInsertRaw l s), c.exited = true →
            v.lastUsed ≤ c.lastUsed) ∧
        ((∀ c ∈ unprotectedOf (storeInsertRaw l s), c.exited = false) →
          ∀ c ∈ unprotectedOf (storeInsertRaw l s), v.lastUsed ≤ c.lastUsed)) := by
  constructor
  · exact runOps_length
  · intro l s hgt hnd
    have hm : MaxSessions = 64 := rfl
    have hp : ProtectedCount = 8 := rfl
    have hlen : ProtectedCount < (storeInsertRaw l s).length := by omega
    obtain ⟨v, h1, h2, h3, h4, h5, h6⟩ := pruneOne_victim_spec hlen hnd
    refine ⟨v, h1, ?_, h3, h4, h5, h6⟩
    unfold storeStore
    rw [if_pos hgt]
    exact h2

/-- A store of 64 distinct sessions for the C3 witness. -/
def demoSessions : List Candidate :=
  (List.range 64).map (fun i => { id := toString i, lastUsed := (i : Int), exited := i % 3 == 0 })

/-- A fresh 65th session for the C3 witness. -/
def demoNew : Candidate := { id := "64", lastUsed := 64, exited := false }

/-- Witness for C3: the eviction clause applied to a concrete store of 65
sessions with distinct timestamps. -/
theorem execStore_invariants_witness :
    (runOps []).length ≤ MaxSessions ∧
    (∃ v, pickVictim (unprotectedOf (storeInsertRaw demoSessions demoNew)) = some v ∧
      storeStore demoSessions demoNew =
        (storeInsertRaw demoSessions demoNew).filter (fun x => x.id != v.id) ∧
      v ∈ unprotectedOf (storeInsertRaw demoSessions demoNew) ∧
      ProtectedCount ≤ ((storeInsertRaw demoSessions demoNew).filter
        (fun x => v.lastUsed < x.lastUsed)).length ∧
      ((∃ c ∈ unprotectedOf (storeInsertRaw demoSessions demoNew), c.exited = true) →
        v.exited = true ∧
        ∀ c ∈ unprotectedOf (storeInsertRaw demoSessions demoNew), c.exited = true →
          v.lastUsed ≤ c.lastUsed) ∧
      ((∀ c ∈ unprotectedOf (storeInsertRaw demoSessions demoNew), c.exited = false) →
        ∀ c ∈ unprotectedOf (storeInsertRaw demoSessions demoNew),
          v.lastUsed ≤ c.lastUsed)) :=
  ⟨execStore_invariants.1 [],
   execStore_invariants.2 demoSessions demoNew (by decide) (by decide)⟩

end ExecSession

namespace Workflow

/-- Character-list prefix test (Go strings.HasPrefix semantics), used to
state "starts with" properties executably. -/
def isPrefixSeg : List Char → List Char → Bool
  | [], _ => true
  | _ :: _, [] => false
  | p :: ps, c :: cs => p == c && isPrefixSeg ps cs

/-! ## Approval gate (src/internal/workflow/approval.go) -/

/-- Modelled from the spec: the models package defining the ConversationItem
discriminator constants is not under src; §3 of the spec names the kinds, of
which these two are needed here. -/
def ItemTypeFunctionCall : String := "function_call"

/-- Modelled from the spec: see ItemTypeFunctionCall. -/
def ItemTypeFunctionCallOutput : String := "function_call_output"

/-- Modelled from the spec: the models package defining ApprovalMode is not
under src; §6 lists approval_mode as one of never, on_failure,
unless_trusted, represented (as in approval.go's comparisons with the empty
string) as a string. -/
def ApprovalNever : String := "never"

/-- Modelled from the spec: see ApprovalNever. -/
def ApprovalOnFailure : String := "on_failure"

/-- Modelled from the spec: see ApprovalNever. -/
def ApprovalUnlessTrusted : String := "unless_trusted"

/-- Payload of a function_call_output item (models package, used by
approval.go). -/
structure FunctionCallOutputPayload where
  content : String
  success : Option Bool
  deriving Repr, DecidableEq

/-- The fields of models.ConversationItem that the workflow code reads or
writes. -/
structure ConversationItem where
  type : String
  callID : String
  name : String
  arguments : String
  output : Option FunctionCallOutputPayload
  deriving Repr, DecidableEq

/-- tools.ExecApprovalRequirement (tools package, not under src; the three
values are fixed by their uses in approval.go). -/
inductive ExecApprovalRequirement where
  | skip
  | needed
  | forbidden
  deriving Repr, DecidableEq

/-- PendingApproval record (workflow package). -/
structure PendingApproval where
  callID : String
  toolName : String
  arguments : String
  reason : String
  deriving Repr, DecidableEq

/-- ApprovalResponse (workflow package): `{approved: [...], denied: [...]}`. -/
structure ApprovalResponse where
  approved : List String
  denied : List String
  deriving Repr, DecidableEq

/-- Modelled from the spec: `isCollabToolCall` is called by
evaluateToolApproval (approval.go line 107) but its definition is in a
source file not present under src.  The spec's approval-gate table (§4.3)
lists no collaboration tools and fixes the classification of every tool the
claims mention, so collab interception is modelled as never matching. -/
def isCollabToolCall (_toolName : String) : Bool := false

/-- The shell evaluation paths of the approval gate
(evaluateShellArrayApproval and evaluateShellCommandApproval, approval.go
lines 137-216) depend on the exec-policy engine and shell detection, which
are not under src.  They are abstracted as arbitrary functions from the
argument JSON and the approval mode to a requirement and a reason. -/
structure ShellPolicyEval where
  evalShellArray : String → String → ExecApprovalRequirement × String
  evalShellCommand : String → String → ExecApprovalRequirement × String

/-- `evaluateToolApproval` (approval.go lines 101-133). -/
def evaluateToolApproval (pe : ShellPolicyEval) (toolName arguments : String)
    (mode : String) : ExecApprovalRequirement × String :=
  if isCollabToolCall toolName then (.skip, "")
  else if toolName = "read_file" ∨ toolName = "list_dir" ∨ toolName = "grep_files" ∨
      toolName = "request_user_input" ∨ toolName = "update_plan" then (.skip, "")
  else if toolName = "shell" then pe.evalShellArray arguments mode
  else if toolName = "shell_command" then pe.evalShellCommand arguments mode
  else if toolName = "write_file" ∨ toolName = "apply_patch" then
    (if mode = ApprovalNever then (.skip, "") else (.needed, "mutating file operation"))
  else
    (if mode = ApprovalNever then (.skip, "") else (.needed, "unknown tool"))

/-- The forbidden-branch message (approval.go lines 82-85). -/
def forbiddenMessage (reason : String) : String :=
  if reason ≠ "" then "Forbidden: " ++ reason
  else "This command is forbidden by exec policy."

/-- The synthetic output item appended for a forbidden call (approval.go
lines 86-93). -/
def forbiddenItem (callID reason : String) : ConversationItem :=
  { type := ItemTypeFunctionCallOutput
    callID := callID
    name := ""
    arguments := ""
    output := some { content := forbiddenMessage reason, success := some false } }

/-- `classifyToolsForApproval` (approval.go lines 49-97).  `mode = ""`
stands for an unset mode. -/
def classifyToolsForApproval (pe : ShellPolicyEval)
    (functionCalls : List ConversationItem) (mode : String) :
    List PendingApproval × List ConversationItem :=
  if mode = "" ∨ mode = ApprovalNever then ([], [])
  else
    functionCalls.foldl
      (fun acc fc =>
        match evaluateToolApproval pe fc.name fc.arguments mode with
        | (.skip, _) => acc
        | (.needed, reason) =>
          (acc.1 ++ [{ callID := fc.callID, toolName := fc.name,
                       arguments := fc.arguments, reason := reason }], acc.2)
        | (.forbidden, reason) => (acc.1, acc.2 ++ [forbiddenItem fc.callID reason]))
      ([], [])

/-- The synthetic output item for a denied call (approval.go lines
248-257). -/
def deniedItem (callID : String) : ConversationItem :=
  { type := ItemTypeFunctionCallOutput
    callID := callID
    name := ""
    arguments := ""
    output := some { content := "User denied execution of this tool call."
                     success := some false } }

/-- `applyApprovalDecision` (approval.go lines 234-264): a nil response
approves every call; otherwise calls whose id is in the denied list get
synthetic denial outputs and the rest are approved.  The approved list of
the response is never read. -/
def applyApprovalDecision (functionCalls : List ConversationItem)
    (resp : Option ApprovalResponse) : List ConversationItem × List ConversationItem :=
  match resp with
  | none => (functionCalls, [])
  | some r =>
    functionCalls.foldl
      (fun acc fc =>
        if r.denied.contains fc.callID then (acc.1, acc.2 ++ [deniedItem fc.callID])
        else (acc.1 ++ [fc], acc.2))
      ([], [])

lemma applyApprovalDecision_go (r : ApprovalResponse) :
    ∀ (calls : List ConversationItem) (acc : List ConversationItem × List ConversationItem),
      calls.foldl
        (fun acc fc =>
          if r.denied.contains fc.callID then (acc.1, acc.2 ++ [deniedItem fc.callID])
          else (acc.1 ++ [fc], acc.2)) acc =
      (acc.1 ++ calls.filter (fun fc => !(r.denied.contains fc.callID)),
       acc.2 ++ (calls.filter (fun fc => r.denied.contains fc.callID)).map
         (fun fc => deniedItem fc.callID)) := by
  intro calls
  induction calls with
  | nil =>
    intro acc
    simp
  | cons fc rest ih =>
    intro acc
    rw [List.foldl_cons]
    by_cases h : r.denied.contains fc.callID = true
    · rw [if_pos h, ih]
      have hm : fc.callID ∈ r.denied := by simpa using h
      simp [List.filter_cons, h, hm]
    · rw [if_neg h, ih]
      have hm : fc.callID ∉ r.denied := by simpa using h
      simp only [Bool.not_eq_true] at h
      simp [List.filter_cons, h, hm]

/-- C9: applyApprovalDecision approves exactly the calls whose id is not in
the denied list, producing denial outputs for the rest in call order; the
response's approved list is never consulted; a nil response approves every
call; and the partition depends only on the membership of ids in the denied
list, not on list order. -/
theorem applyApprovalDecision_denied_only :
    (∀ calls : List ConversationItem, applyApprovalDecision calls none = (calls, [])) ∧
    (∀ (calls : List ConversationItem) (r : ApprovalResponse),
      (applyApprovalDecision calls (some r)).1 =
        calls.filter (fun fc => !(r.denied.contains fc.callID)) ∧
      (applyApprovalDecision calls (some r)).2 =
        (calls.filter (fun fc => r.denied.contains fc.callID)).map
          (fun fc => deniedItem fc.callID)) ∧
    (∀ (calls : List ConversationItem) (approved approved2 denied : List String),
      applyApprovalDecision calls (some ⟨approved, denied⟩) =
        applyApprovalDecision calls (some ⟨approved2, denied⟩)) ∧
    (∀ (calls : List ConversationItem) (r r2 : ApprovalResponse),
      (∀ i : String, r.denied.contains i = r2.denied.contains i) →
      applyApprovalDecision calls (some r) = applyApprovalDecision calls (some r2)) := by
  refine ⟨fun calls => rfl, ?_, ?_, ?_⟩
  · intro calls r
    rw [applyApprovalDecision, applyApprovalDecision_go r calls ([], [])]
    exact ⟨by simp, by simp⟩
  · intro calls approved approved2 denied
    rfl
  · intro calls r r2 h
    rw [applyApprovalDecision, applyApprovalDecision, applyApprovalDecision_go r calls ([], []),
      applyApprovalDecision_go r2 calls ([], [])]
    have h1 : calls.filter (fun fc => !(r.denied.contains fc.callID)) =
        calls.filter (fun fc => !(r2.denied.contains fc.callID)) :=
      List.filter_congr (fun fc _ => by rw [h fc.callID])
    have h2 : calls.filter (fun fc => r.denied.contains fc.callID) =
        calls.filter (fun fc => r2.denied.contains fc.callID) :=
      List.filter_congr (fun fc _ => by rw [h fc.callID])
    rw [h1, h2]

/-- A call item used to instantiate the approval-gate witnesses. -/
def demoCall : ConversationItem :=
  { type := ItemTypeFunctionCall
    callID := "a"
    name := "write_file"
    arguments := "args"
    output := none }

/-- Witness for C9: the order-independence clause applied to a concrete call
list and two responses that denote the same denied set in different orders
and with different approved lists. -/
theorem applyApprovalDecision_denied_only_witness :
    applyApprovalDecision [demoCall] (some ⟨[], ["a", "b"]⟩) =
      applyApprovalDecision [demoCall] (some ⟨["x"], ["b", "a"]⟩) :=
  applyApprovalDecision_denied_only.2.2.2 [demoCall] ⟨[], ["a", "b"]⟩ ⟨["x"], ["b", "a"]⟩
    (fun i => by simp [List.contains]; exact Bool.or_comm _ _)

/-- C4: classification is skip for the five read-only or
workflow-intercepted tools in every mode; needed for write_file and
apply_patch in every mode other than never; and a batch classified under an
unset or never mode yields no pending approvals and no forbidden items. -/
theorem approval_classification_modes :
    (∀ (pe : ShellPolicyEval) (mode args : String),
      (evaluateToolApproval pe "read_file" args mode).1 = .skip ∧
      (evaluateToolApproval pe "list_dir" args mode).1 = .skip ∧
      (evaluateToolApproval pe "grep_files" args mode).1 = .skip ∧
      (evaluateToolApproval pe "request_user_input" args mode).1 = .skip ∧
      (evaluateToolApproval pe "update_plan" args mode).1 = .skip) ∧
    (∀ (pe : ShellPolicyEval) (mode args : String), mode ≠ ApprovalNever →
      (evaluateToolApproval pe "write_file" args mode).1 = .needed ∧
      (evaluateToolApproval pe "apply_patch" args mode).1 = .needed) ∧
    (∀ (pe : ShellPolicyEval) (calls : List ConversationItem) (mode : String),
      mode = "" ∨ mode = ApprovalNever →
      classifyToolsForApproval pe calls mode = ([], [])) := by
  refine ⟨?_, ?_, ?_⟩
  · intro pe mode args
    refine ⟨?_, ?_, ?_, ?_, ?_⟩ <;> simp [evaluateToolApproval, isCollabToolCall]
  · intro pe mode args h
    constructor <;> simp [evaluateToolApproval, isCollabToolCall, h]
  · intro pe calls mode h
    rw [classifyToolsForApproval, if_pos h]

/-- A trivial shell-policy abstraction for witnesses. -/
def demoPolicyEval : ShellPolicyEval :=
  ⟨fun _ _ => (.needed, ""), fun _ _ => (.needed, "")⟩

/-- Witness for C4 at concrete inputs: write_file and apply_patch need
approval under unless_trusted, and a batch under never classifies to
nothing. -/
theorem approval_classification_modes_witness :
    (evaluateToolApproval demoPolicyEval "write_file" "args" ApprovalUnlessTrusted).1 = .needed ∧
    (evaluateToolApproval demoPolicyEval "apply_patch" "args" ApprovalUnlessTrusted).1 = .needed ∧
    classifyToolsForApproval demoPolicyEval [demoCall] ApprovalNever = ([], []) ∧
    (evaluateToolApproval demoPolicyEval "read_file" "args" ApprovalNever).1 = .skip :=
  ⟨(approval_classification_modes.2.1 demoPolicyEval ApprovalUnlessTrusted "args" (by decide)).1,
   (approval_classification_modes.2.1 demoPolicyEval ApprovalUnlessTrusted "args" (by decide)).2,
   approval_classification_modes.2.2 demoPolicyEval [demoCall] ApprovalNever (Or.inr rfl),
   (approval_classification_modes.1 demoPolicyEval ApprovalNever "args").1⟩

lemma classifyToolsForApproval_go (pe : ShellPolicyEval) (mode : String) :
    ∀ (calls : List ConversationItem) (acc : List PendingApproval × List ConversationItem),
      calls.foldl
        (fun acc fc =>
          match evaluateToolApproval pe fc.name fc.arguments mode with
          | (.skip, _) => acc
          | (.needed, reason) =>
            (acc.1 ++ [{ callID := fc.callID, toolName := fc.name,
                         arguments := fc.arguments, reason := reason }], acc.2)
          | (.forbidden, reason) => (acc.1, acc.2 ++ [forbiddenItem fc.callID reason]))
        acc =
      (acc.1 ++ (calls.filter
          (fun fc => (evaluateToolApproval pe fc.name fc.arguments mode).1 ==
            ExecApprovalRequirement.needed)).map
          (fun fc => { callID := fc.callID, toolName := fc.name, arguments := fc.arguments,
                       reason := (evaluateToolApproval pe fc.name fc.arguments mode).2 }),
       acc.2 ++ (calls.filter
          (fun fc => (evaluateToolApproval pe fc.name fc.arguments mode).1 ==
            ExecApprovalRequirement.forbidden)).map
          (fun fc => forbiddenItem fc.callID
            (evaluateToolApproval pe fc.name fc.arguments mode).2)) := by
  intro calls
  induction calls with
  | nil =>
    intro acc
    simp
  | cons fc rest ih =>
    intro acc
    rw [List.foldl_cons]
    rcases hev : evaluateToolApproval pe fc.name fc.arguments mode with ⟨req, reason⟩
    cases req with
    | skip =>
      rw [ih]
      simp [List.filter_cons, hev]
    | needed =>
      rw [ih]
      simp [List.filter_cons, hev]
    | forbidden =>
      rw [ih]
      simp [List.filter_cons, hev]

/-- C5 (amended): every call whose id the approval response denies produces
exactly one synthetic function_call_output with success false, content
exactly "User denied execution of this tool call." and that call's id, in
call order, and no such call is approved for execution; under an active
approval mode, every call classified forbidden produces exactly one
synthetic function_call_output with success false, that call's id and the
message built from that call's own classification reason, while the pending
(to-execute) list holds only the calls classified needed, so a forbidden
call is never executed; the forbidden message is "Forbidden: reason" for a
non-empty reason and exactly "This command is forbidden by exec policy."
for an empty one (so it starts with "Forbidden" only in the former
case). -/
theorem approval_denied_and_forbidden_outputs :
    (∀ (calls : List ConversationItem) (r : ApprovalResponse),
      (applyApprovalDecision calls (some r)).2 =
        (calls.filter (fun fc => r.denied.contains fc.callID)).map
          (fun fc => deniedItem fc.callID)) ∧
    (∀ callID : String,
      (deniedItem callID).output =
        some { content := "User denied execution of this tool call."
               success := some false } ∧
      (deniedItem callID).callID = callID ∧
      (deniedItem callID).type = ItemTypeFunctionCallOutput) ∧
    (∀ (calls : List ConversationItem) (r : ApprovalResponse) (fc : ConversationItem),
      fc ∈ (applyApprovalDecision calls (some r)).1 →
        r.denied.contains fc.callID = false) ∧
    (∀ (pe : ShellPolicyEval) (calls : List ConversationItem) (mode : String),
      ¬(mode = "" ∨ mode = ApprovalNever) →
      (classifyToolsForApproval pe calls mode).2 =
        (calls.filter (fun fc =>
          (evaluateToolApproval pe fc.name fc.arguments mode).1 ==
            ExecApprovalRequirement.forbidden)).map
          (fun fc => forbiddenItem fc.callID
            (evaluateToolApproval pe fc.name fc.arguments mode).2) ∧
      (classifyToolsForApproval pe calls mode).1 =
        (calls.filter (fun fc =>
          (evaluateToolApproval pe fc.name fc.arguments mode).1 ==
            ExecApprovalRequirement.needed)).map
          (fun fc => { callID := fc.callID, toolName := fc.name, arguments := fc.arguments,
                       reason := (evaluateToolApproval pe fc.name fc.arguments mode).2 })) ∧
    (∀ callID reason : String,
      (forbiddenItem callID reason).output =
        some { content := forbiddenMessage reason, success := some false } ∧
      (forbiddenItem callID reason).callID = callID ∧
      (forbiddenItem callID reason).type = ItemTypeFunctionCallOutput) ∧
    (∀ reason : String, reason ≠ "" →
      ∃ rest, forbiddenMessage reason = "Forbidden" ++ rest) ∧
    forbiddenMessage "" = "This command is forbidden by exec policy." := by
  refine ⟨?_, ?_, ?_, ?_, ?_, ?_, ?_⟩
  · intro calls r
    rw [applyApprovalDecision, applyApprovalDecision_go r calls ([], [])]
    simp
  · intro callID
    exact ⟨rfl, rfl, rfl⟩
  · intro calls r fc h
    rw [applyApprovalDecision, applyApprovalDecision_go r calls ([], [])] at h
    simp only [List.nil_append] at h
    have := List.of_mem_filter h
    simpa using this
  · intro pe calls mode hm
    rw [classifyToolsForApproval, if_neg hm, classifyToolsForApproval_go pe mode calls ([], [])]
    exact ⟨by simp, by simp⟩
  · intro callID reason
    exact ⟨rfl, rfl, rfl⟩
  · intro reason h
    refine ⟨": " ++ reason, ?_⟩
    rw [forbiddenMessage, if_pos h,
      show ("Forbidden: " : String) = "Forbidden" ++ ": " from by decide,
      String.append_assoc]
  · rfl

/-- A shell-policy abstraction whose forbidden decisions carry no
justification, as the heuristic fallback path of
evaluateCommandVecApproval does (approval.go line 215 returns an empty
reason). -/
def emptyReasonPolicy : ShellPolicyEval :=
  ⟨fun _ _ => (.forbidden, ""), fun _ _ => (.forbidden, "")⟩

/-- A shell call used by the C5 counterexample. -/
def demoShellCall : ConversationItem :=
  { type := ItemTypeFunctionCall
    callID := "call-1"
    name := "shell"
    arguments := "rm -rf /"
    output := none }

/-- C5 counterexample: a call classified forbidden with an empty
justification gets the fixed message "This command is forbidden by exec
policy.", which does not start with "Forbidden". -/
theorem approval_forbidden_message_counterexample :
    ∃ item ∈ (classifyToolsForApproval emptyReasonPolicy [demoShellCall]
        ApprovalUnlessTrusted).2,
      (match item.output with
       | some o => isPrefixSeg "Forbidden".toList o.content.toList
       | none => true) = false := by
  decide

/-- Witness for C5 at concrete inputs: the approved-excludes-denied clause
applied to a concrete approved call, the forbidden and pending production
equalities applied to a concrete forbidden classification under
unless_trusted, and the forbidden-message clause applied to a non-empty
reason. -/
theorem approval_denied_and_forbidden_outputs_witness :
    (ApprovalResponse.mk [] ["z"]).denied.contains demoCall.callID = false ∧
    ((classifyToolsForApproval emptyReasonPolicy [demoShellCall] ApprovalUnlessTrusted).2 =
      ([demoShellCall].filter (fun fc =>
        (evaluateToolApproval emptyReasonPolicy fc.name fc.arguments ApprovalUnlessTrusted).1 ==
          ExecApprovalRequirement.forbidden)).map
        (fun fc => forbiddenItem fc.callID
          (evaluateToolApproval emptyReasonPolicy fc.name fc.arguments
            ApprovalUnlessTrusted).2) ∧
      (classifyToolsForApproval emptyReasonPolicy [demoShellCall] ApprovalUnlessTrusted).1 =
        ([demoShellCall].filter (fun fc =>
          (evaluateToolApproval emptyReasonPolicy fc.name fc.arguments
            ApprovalUnlessTrusted).1 == ExecApprovalRequirement.needed)).map
          (fun fc => { callID := fc.callID, toolName := fc.name, arguments := fc.arguments,
                       reason := (evaluateToolApproval emptyReasonPolicy fc.name fc.arguments
                         ApprovalUnlessTrusted).2 })) ∧
    (∃ rest, forbiddenMessage "exec policy rule" = "Forbidden" ++ rest) :=
  ⟨approval_denied_and_forbidden_outputs.2.2.1 [demoCall] ⟨[], ["z"]⟩ demoCall (by decide),
   approval_denied_and_forbidden_outputs.2.2.2.1 emptyReasonPolicy [demoShellCall]
     ApprovalUnlessTrusted (by decide),
   approval_denied_and_forbidden_outputs.2.2.2.2.2.1 "exec policy rule" (by decide)⟩

/-! ## Sandbox-denial detection and escalation
(src/internal/workflow/escalation.go) -/

/-- Character-list substring test (Go strings.Contains semantics). -/
def containsSeg (pat : List Char) : List Char → Bool
  | [] => pat.isEmpty
  | c :: cs => isPrefixSeg pat (c :: cs) || containsSeg pat cs

/-- Lowercasing as used by strings.ToLower; the keywords are ASCII so the
per-character mapping suffices. -/
def toLowerChars (s : String) : List Char := s.toList.map Char.toLower

/-- `sandboxDenialKeywords` (escalation.go lines 21-29). -/
def sandboxDenialKeywords : List String :=
  ["operation not permitted",
   "permission denied",
   "read-only file system",
   "seccomp",
   "sandbox",
   "landlock",
   "failed to write file"]

/-- `isLikelySandboxDenial` (escalation.go lines 34-42). -/
def isLikelySandboxDenial (output : String) : Bool :=
  sandboxDenialKeywords.any (fun kw => containsSeg kw.toList (toLowerChars output))

/-- The fields of activities.ToolActivityOutput that the escalation scan
reads (the activities package is not under src; the fields are fixed by
their uses in escalation.go). -/
structure ToolActivityOutput where
  callID : String
  content : String
  success : Option Bool
  deriving Repr, DecidableEq

/-- EscalationRequest (workflow package), fields as populated in
escalation.go lines 64-70. -/
structure EscalationRequest where
  callID : String
  toolName : String
  arguments : String
  output : String
  reason : String
  deriving Repr, DecidableEq

/-- The escalation scan of handleOnFailureEscalation (escalation.go lines
56-77): results are paired with their function calls by index; a result
enters escalation when it failed and looks like a sandbox denial. -/
def buildEscalations (pairs : List (ConversationItem × ToolActivityOutput)) :
    List EscalationRequest :=
  pairs.foldl
    (fun acc p =>
      match p.2.success with
      | some false =>
        if isLikelySandboxDenial p.2.content then
          acc ++ [{ callID := p.2.callID, toolName := p.1.name, arguments := p.1.arguments,
                    output := p.2.content, reason := "command failed in sandbox" }]
        else acc
      | _ => acc)
    []

lemma buildEscalations_go :
    ∀ (pairs : List (ConversationItem × ToolActivityOutput))
      (acc : List EscalationRequest),
      pairs.foldl
        (fun acc p =>
          match p.2.success with
          | some false =>
            if isLikelySandboxDenial p.2.content then
              acc ++ [{ callID := p.2.callID, toolName := p.1.name,
                        arguments := p.1.arguments,
                        output := p.2.content, reason := "command failed in sandbox" }]
            else acc
          | _ => acc)
        acc =
      acc ++ (pairs.filter
          (fun p => p.2.success == some false && isLikelySandboxDenial p.2.content)).map
        (fun p => { callID := p.2.callID, toolName := p.1.name, arguments := p.1.arguments,
                    output := p.2.content, reason := "command failed in sandbox" }) := by
  intro pairs
  induction pairs with
  | nil =>
    intro acc
    simp
  | cons p rest ih =>
    intro acc
    rw [List.foldl_cons]
    rcases hs : p.2.success with _ | b
    · rw [ih]
      simp [List.filter_cons, hs]
    · cases b
      · by_cases hd : isLikelySandboxDenial p.2.content = true
        · rw [ih]
          simp [List.filter_cons, hs, hd]
        · rw [ih]
          simp only [Bool.not_eq_true] at hd
          simp [List.filter_cons, hs, hd]
      · rw [ih]
        simp [List.filter_cons, hs]

/-- C7: isLikelySandboxDenial holds exactly when the lowercased output
contains one of the seven fixed keywords, and a tool result enters the
escalation list exactly when it failed (success = false) and this predicate
holds on its content. -/
theorem sandbox_denial_detection :
    (∀ output : String,
      isLikelySandboxDenial output = true ↔
        (containsSeg "operation not permitted".toList (toLowerChars output) = true ∨
         containsSeg "permission denied".toList (toLowerChars output) = true ∨
         containsSeg "read-only file system".toList (toLowerChars output) = true ∨
         containsSeg "seccomp".toList (toLowerChars output) = true ∨
         containsSeg "sandbox".toList (toLowerChars output) = true ∨
         containsSeg "landlock".toList (toLowerChars output) = true ∨
         containsSeg "failed to write file".toList (toLowerChars output) = true)) ∧
    (∀ pairs : List (ConversationItem × ToolActivityOutput),
      buildEscalations pairs =
        (pairs.filter
            (fun p => p.2.success == some false && isLikelySandboxDenial p.2.content)).map
          (fun p => { callID := p.2.callID, toolName := p.1.name,
                      arguments := p.1.arguments, output := p.2.content,
                      reason := "command failed in sandbox" })) := by
  constructor
  · intro output
    simp [isLikelySandboxDenial, sandboxDenialKeywords, List.any_cons, List.any_nil]
  · intro pairs
    rw [buildEscalations, buildEscalations_go pairs []]
    simp

/-! ## update_plan parsing (src/internal/workflow/plan.go)

The argument string is JSON; Go's encoding/json is modelled on a JSON value
tree.  The typed decode of parseUpdatePlanArgs's anonymous struct follows
encoding/json semantics: a top-level null or object is accepted, a present
field of the wrong type is an error, a missing or null field keeps its zero
value, and plan elements must be null or objects. -/

/-- A JSON value. -/
inductive Json where
  | null
  | bool (b : Bool)
  | num (n : Int)
  | str (s : String)
  | arr (elems : List Json)
  | obj (fields : List (String × Json))

/-- Object field lookup. -/
def Json.getField : Json → String → Option Json
  | .obj fields, key => (fields.find? (fun f => f.1 == key)).map (fun f => f.2)
  | _, _ => none

/-- The decoded anonymous struct fields of parseUpdatePlanArgs (plan.go
lines 61-67), before validation. -/
structure RawStep where
  step : String
  status : String
  deriving Repr, DecidableEq

/-- See RawStep. -/
structure RawArgs where
  explanation : String
  plan : List RawStep
  deriving Repr, DecidableEq

/-- Decoding a string-typed struct field from an object: missing or null
keeps the zero value, a string decodes, anything else is a type error. -/
def decodeStringField (fields : List (String × Json)) (key : String) : Except String String :=
  match (fields.find? (fun f => f.1 == key)).map (fun f => f.2) with
  | none => .ok ""
  | some Json.null => .ok ""
  | some (Json.str s) => .ok s
  | some _ => .error ("cannot unmarshal field " ++ key)

/-- Decoding one plan element. -/
def decodeStep : Json → Except String RawStep
  | .null => .ok { step := "", status := "" }
  | .obj fields => do
      let st ← decodeStringField fields "step"
      let status ← decodeStringField fields "status"
      .ok { step := st, status := status }
  | _ => .error "cannot unmarshal plan element"

/-- Decoding the plan array elementwise. -/
def decodeSteps : List Json → Except String (List RawStep)
  | [] => .ok []
  | x :: xs => do
      let s ← decodeStep x
      let rest ← decodeSteps xs
      .ok (s :: rest)

/-- The json.Unmarshal call of parseUpdatePlanArgs (plan.go line 68). -/
def unmarshalUpdatePlanArgs : Json → Except String RawArgs
  | .null => .ok { explanation := "", plan := [] }
  | .obj fields => do
      let explanation ← decodeStringField fields "explanation"
      match (fields.find? (fun f => f.1 == "plan")).map (fun f => f.2) with
      | none => .ok { explanation := explanation, plan := [] }
      | some Json.null => .ok { explanation := explanation, plan := [] }
      | some (Json.arr xs) => do
          let steps ← decodeSteps xs
          .ok { explanation := explanation, plan := steps }
      | some _ => .error "cannot unmarshal field plan"
  | _ => .error "cannot unmarshal arguments"

/-- Modelled from the spec: the PlanStepStatus constants are defined in a
workflow types file not under src; the values are fixed by §3 of the spec
(status in pending, in_progress, completed) and by the literals in the
plan.go tests. -/
def PlanStepPending : String := "pending"

/-- Modelled from the spec: see PlanStepPending. -/
def PlanStepInProgress : String := "in_progress"

/-- Modelled from the spec: see PlanStepPending. -/
def PlanStepCompleted : String := "completed"

/-- A validated plan step (workflow package). -/
structure PlanStep where
  step : String
  status : String
  deriving Repr, DecidableEq

/-- The validated plan state (workflow package). -/
structure PlanState where
  explanation : String
  steps : List PlanStep
  deriving Repr, DecidableEq

/-- The validation loop of parseUpdatePlanArgs (plan.go lines 76-99): fails
at the first empty step text or invalid status.  Error messages are
abbreviated (the Go messages include the step index). -/
def validateSteps : List RawStep → Except String (List PlanStep)
  | [] => .ok []
  | s :: rest =>
    if s.step = "" then .error "step description must not be empty"
    else if s.status = PlanStepPending ∨ s.status = PlanStepInProgress ∨
        s.status = PlanStepCompleted then
      match validateSteps rest with
      | .error e => .error e
      | .ok sts => .ok ({ step := s.step, status := s.status } :: sts)
    else .error "invalid status"

/-- `parseUpdatePlanArgs` (plan.go lines 60-109).  Go counts in_progress
steps inside the loop and checks the count after it; statuses are preserved
by validation, so the count over the validated steps is the same. -/
def parseUpdatePlanArgs (j : Json) : Except String PlanState :=
  match unmarshalUpdatePlanArgs j with
  | .error e => .error ("invalid JSON: " ++ e)
  | .ok args =>
    if args.plan.length = 0 then .error "plan array must not be empty"
    else
      match validateSteps args.plan with
      | .error e => .error e
      | .ok steps =>
        if 1 < (steps.filter (fun st => st.status == PlanStepInProgress)).length then
          .error "at most one step can be in_progress"
        else .ok { explanation := args.explanation, steps := steps }

/-- `SessionState.handleUpdatePlan` (plan.go lines 25-56) restricted to its
effect on the stored plan and the returned item. -/
def handleUpdatePlan (plan0 : Option PlanState) (callID : String) (args : Json) :
    Option PlanState × ConversationItem :=
  match parseUpdatePlanArgs args with
  | .error e =>
    (plan0,
     { type := ItemTypeFunctionCallOutput, callID := callID, name := "", arguments := "",
       output := some { content := "Invalid update_plan arguments: " ++ e
                        success := some false } })
  | .ok st =>
    (some st,
     { type := ItemTypeFunctionCallOutput, callID := callID, name := "", arguments := "",
       output := some { content := "Plan updated.", success := some true } })

/-- The success criterion in the claim's own words: the argument is valid
JSON containing a non-empty plan array in which every step has non-empty
text and a status among pending, in_progress, completed, with at most one
step in_progress.  Stated from the claim for comparison with
parseUpdatePlanArgs. -/
def claimPlanCriterion (j : Json) : Bool :=
  match Json.getField j "plan" with
  | some (.arr xs) =>
    !xs.isEmpty &&
    xs.all (fun x =>
      match Json.getField x "step", Json.getField x "status" with
      | some (.str st), some (.str s) =>
        !(st == "") && (s == "pending" || s == "in_progress" || s == "completed")
      | _, _ => false) &&
    decide ((xs.filter (fun x =>
      match Json.getField x "status" with
      | some (.str s) => s == "in_progress"
      | _ => false)).length ≤ 1)
  | _ => false

lemma validateSteps_ok_iff :
    ∀ ss : List RawStep,
      (∃ sts, validateSteps ss = .ok sts) ↔
        ∀ s ∈ ss, s.step ≠ "" ∧ (s.status = PlanStepPending ∨ s.status = PlanStepInProgress ∨
          s.status = PlanStepCompleted) := by
  intro ss
  induction ss with
  | nil =>
    constructor
    · intro _ s hs
      cases hs
    · intro _
      exact ⟨[], rfl⟩
  | cons s rest ih =>
    rw [validateSteps]
    constructor
    · rintro ⟨sts, hsts⟩
      by_cases h1 : s.step = ""
      · rw [if_pos h1] at hsts
        cases hsts
      · rw [if_neg h1] at hsts
        by_cases h2 : s.status = PlanStepPending ∨ s.status = PlanStepInProgress ∨
            s.status = PlanStepCompleted
        · rw [if_pos h2] at hsts
          intro x hx
          rcases List.mem_cons.mp hx with hxs | hxs
          · exact hxs ▸ ⟨h1, h2⟩
          · cases hrest : validateSteps rest with
            | error e =>
              rw [hrest] at hsts
              cases hsts
            | ok sts2 =>
              exact (ih.mp ⟨sts2, hrest⟩) x hxs
        · rw [if_neg h2] at hsts
          cases hsts
    · intro hall
      have h1 := (hall s (List.mem_cons_self s rest)).1
      have h2 := (hall s (List.mem_cons_self s rest)).2
      rw [if_neg h1, if_pos h2]
      obtain ⟨sts2, hrest⟩ := ih.mpr (fun x hx => hall x (List.mem_cons_of_mem s hx))
      rw [hrest]
      exact ⟨_, rfl⟩

lemma validateSteps_ok_map :
    ∀ (ss : List RawStep) (sts : List PlanStep), validateSteps ss = .ok sts →
      sts = ss.map (fun s => { step := s.step, status := s.status }) := by
  intro ss
  induction ss with
  | nil =>
    intro sts h
    cases h
    rfl
  | cons s rest ih =>
    intro sts h
    rw [validateSteps] at h
    by_cases h1 : s.step = ""
    · rw [if_pos h1] at h
      cases h
    · rw [if_neg h1] at h
      by_cases h2 : s.status = PlanStepPending ∨ s.status = PlanStepInProgress ∨
          s.status = PlanStepCompleted
      · rw [if_pos h2] at h
        cases hrest : validateSteps rest with
        | error e =>
          rw [hrest] at h
          cases h
        | ok sts2 =>
          rw [hrest] at h
          cases h
          rw [List.map_cons, ih sts2 hrest]
      · rw [if_neg h2] at h
        cases h

/-- C8 (amended): parseUpdatePlanArgs succeeds iff the argument unmarshals
into the args struct (top-level object or null, string-typed explanation
and step fields, plan an array of step objects) with a non-empty plan in
which every step has non-empty text and a valid status and at most one step
is in_progress; on success the steps are preserved in order; and when
parsing fails, handleUpdatePlan leaves the stored plan unchanged and
returns a function_call_output with success = false. -/
theorem parseUpdatePlan_spec :
    (∀ j : Json,
      (∃ st, parseUpdatePlanArgs j = .ok st) ↔
        ∃ args, unmarshalUpdatePlanArgs j = .ok args ∧ args.plan ≠ [] ∧
          (∀ s ∈ args.plan, s.step ≠ "" ∧ (s.status = PlanStepPending ∨
            s.status = PlanStepInProgress ∨ s.status = PlanStepCompleted)) ∧
          (args.plan.filter (fun s => s.status == PlanStepInProgress)).length ≤ 1) ∧
    (∀ (j : Json) (st : PlanState), parseUpdatePlanArgs j = .ok st →
      ∃ args, unmarshalUpdatePlanArgs j = .ok args ∧
        st.steps = args.plan.map (fun s => { step := s.step, status := s.status }) ∧
        st.explanation = args.explanation) ∧
    (∀ (plan0 : Option PlanState) (callID : String) (j : Json),
      (parseUpdatePlanArgs j).toOption = none →
        (handleUpdatePlan plan0 callID j).1 = plan0 ∧
        ∃ e, (handleUpdatePlan plan0 callID j).2.output =
          some { content := "Invalid update_plan arguments: " ++ e
                 success := some false }) := by
  have hcount : ∀ (ss : List RawStep) (sts : List PlanStep), validateSteps ss = .ok sts →
      (sts.filter (fun st => st.status == PlanStepInProgress)).length =
        (ss.filter (fun s => s.status == PlanStepInProgress)).length := by
    intro ss sts h
    rw [validateSteps_ok_map ss sts h, List.filter_map, List.length_map]
    rfl
  refine ⟨?_, ?_, ?_⟩
  · intro j
    constructor
    · rintro ⟨st, hst⟩
      rw [parseUpdatePlanArgs] at hst
      cases hu : unmarshalUpdatePlanArgs j with
      | error e =>
        rw [hu] at hst
        cases hst
      | ok args =>
        rw [hu] at hst
        dsimp only at hst
        by_cases h0 : args.plan.length = 0
        · rw [if_pos h0] at hst
          cases hst
        · rw [if_neg h0] at hst
          cases hv : validateSteps args.plan with
          | error e =>
            rw [hv] at hst
            cases hst
          | ok steps =>
            rw [hv] at hst
            dsimp only at hst
            by_cases hc :
                1 < (steps.filter (fun st => st.status == PlanStepInProgress)).length
            · rw [if_pos hc] at hst
              cases hst
            · refine ⟨args, rfl, fun hnil => h0 (by rw [hnil]; rfl), ?_, ?_⟩
              · exact (validateSteps_ok_iff args.plan).mp ⟨steps, hv⟩
              · rw [← hcount args.plan steps hv]
                omega
    · rintro ⟨args, hu, hne, hall, hcnt⟩
      rw [parseUpdatePlanArgs, hu]
      dsimp only
      rw [if_neg (fun h0 => hne (List.length_eq_zero.mp h0))]
      obtain ⟨steps, hv⟩ := (validateSteps_ok_iff args.plan).mpr hall
      rw [hv]
      dsimp only
      rw [if_neg (by rw [hcount args.plan steps hv]; omega)]
      exact ⟨_, rfl⟩
  · intro j st hst
    rw [parseUpdatePlanArgs] at hst
    cases hu : unmarshalUpdatePlanArgs j with
    | error e =>
      rw [hu] at hst
      cases hst
    | ok args =>
      rw [hu] at hst
      dsimp only at hst
      by_cases h0 : args.plan.length = 0
      · rw [if_pos h0] at hst
        cases hst
      · rw [if_neg h0] at hst
        cases hv : validateSteps args.plan with
        | error e =>
          rw [hv] at hst
          cases hst
        | ok steps =>
          rw [hv] at hst
          dsimp only at hst
          by_cases hc : 1 < (steps.filter (fun st => st.status == PlanStepInProgress)).length
          · rw [if_pos hc] at hst
            cases hst
          · rw [if_neg hc] at hst
            cases hst
            exact ⟨args, rfl, validateSteps_ok_map args.plan steps hv, rfl⟩
  · intro plan0 callID j hfail
    rw [handleUpdatePlan]
    cases hp : parseUpdatePlanArgs j with
    | error e => exact ⟨rfl, e, rfl⟩
    | ok st =>
      rw [hp] at hfail
      cases hfail

/-- A well-formed plan whose explanation field has the wrong JSON type. -/
def demoPlanArgs : Json :=
  .obj [("explanation", .num 5),
        ("plan", .arr [.obj [("step", .str "write code"), ("status", .str "pending")]])]

/-- C8 counterexample: this argument is valid JSON containing a non-empty
plan array whose single step has non-empty text and a valid status, yet
parseUpdatePlanArgs fails, because json.Unmarshal rejects the numeric
explanation field. -/
theorem parseUpdatePlan_counterexample :
    claimPlanCriterion demoPlanArgs = true ∧
    (parseUpdatePlanArgs demoPlanArgs).toOption = none := by
  decide

/-- A plan argument that decodes and validates. -/
def demoGoodPlan : Json :=
  .obj [("plan", .arr
    [.obj [("step", .str "read the code"), ("status", .str "in_progress")],
     .obj [("step", .str "write the fix"), ("status", .str "pending")]])]

/-- An argument that is not an object. -/
def demoBadPlan : Json := .str "not an object"

/-- Witness for C8 at concrete inputs: order preservation on a two-step
plan, and the unchanged-state clause on a failing argument. -/
theorem parseUpdatePlan_spec_witness :
    (∃ args, unmarshalUpdatePlanArgs demoGoodPlan = .ok args ∧
      ({ explanation := ""
         steps := [{ step := "read the code", status := "in_progress" },
                   { step := "write the fix", status := "pending" }] } : PlanState).steps =
        args.plan.map (fun s => { step := s.step, status := s.status }) ∧
      ({ explanation := ""
         steps := [{ step := "read the code", status := "in_progress" },
                   { step := "write the fix", status := "pending" }] } : PlanState).explanation =
        args.explanation) ∧
    ((handleUpdatePlan none "c9" demoBadPlan).1 = none ∧
      ∃ e, (handleUpdatePlan none "c9" demoBadPlan).2.output =
        some { content := "Invalid update_plan arguments: " ++ e
               success := some false }) :=
  ⟨parseUpdatePlan_spec.2.1 demoGoodPlan
      { explanation := ""
        steps := [{ step := "read the code", status := "in_progress" },
                  { step := "write the fix", status := "pending" }] } (by rfl),
   parseUpdatePlan_spec.2.2 none "c9" demoBadPlan (by decide)⟩

end Workflow

namespace Handlers

/-! ## Unified exec handlers
(src/internal/tools/handlers/shell_test.go, second document: the handler
implementation for exec_command and write_stdin) -/

/-- Yield-time constants (handler file lines 335-341). -/
def MinYieldTimeMs : Int := 250

/-- See MinYieldTimeMs. -/
def MaxYieldTimeMs : Int := 30000

/-- Minimum for empty write_stdin polls (prevent rapid polling). -/
def MinEmptyYieldTimeMs : Int := 5000

/-- Default yield for exec_command. -/
def DefaultExecYieldMs : Int := 10000

/-- Default yield for write_stdin. -/
def DefaultStdinYieldMs : Int := 250

/-- `clampYieldTime` (handler file lines 623-625).  Go routes the integers
through float64 max/min; every integer involved round-trips exactly through
float64 on the ranges at the call sites, so the function is modelled with
integer max/min. -/
def clampYieldTime (ms minMs maxMs : Int) : Int := max minMs (min ms maxMs)

/-- `parseNumberArg` (handler file lines 605-620): a present numeric
argument or the default; non-numeric JSON values also fall back to the
default, so the argument is modelled as an optional integer. -/
def parseNumberArg (v : Option Int) (defaultVal : Int) : Int := v.getD defaultVal

/-- The yield-time computation of handleExecCommand (lines 427-428). -/
def execYieldMs (yieldArg : Option Int) : Int :=
  clampYieldTime (parseNumberArg yieldArg DefaultExecYieldMs) MinYieldTimeMs MaxYieldTimeMs

/-- The yield-time computation of handleWriteStdin (lines 507-514): empty
writes use the larger minimum. -/
def writeStdinYieldMs (chars : String) (yieldArg : Option Int) : Int :=
  if chars = "" then
    clampYieldTime (parseNumberArg yieldArg DefaultStdinYieldMs)
      MinEmptyYieldTimeMs MaxYieldTimeMs
  else
    clampYieldTime (parseNumberArg yieldArg DefaultStdinYieldMs)
      MinYieldTimeMs MaxYieldTimeMs

/-- C6: clampYieldTime returns min below the range, max above it and the
value inside it; exec_command clamps yield_time_ms to [250, 30000] with
default 10000; write_stdin with empty chars clamps with minimum 5000 ms and
non-empty writes with minimum 250 ms (default 250). -/
theorem yield_time_clamping :
    (∀ x mn mx : Int, mn ≤ mx →
      (x < mn → clampYieldTime x mn mx = mn) ∧
      (mx < x → clampYieldTime x mn mx = mx) ∧
      (mn ≤ x → x ≤ mx → clampYieldTime x mn mx = x)) ∧
    (∀ yieldArg : Option Int,
      execYieldMs yieldArg = clampYieldTime (yieldArg.getD 10000) 250 30000 ∧
      250 ≤ execYieldMs yieldArg ∧ execYieldMs yieldArg ≤ 30000) ∧
    execYieldMs none = 10000 ∧
    (∀ yieldArg : Option Int,
      writeStdinYieldMs "" yieldArg = clampYieldTime (yieldArg.getD 250) 5000 30000) ∧
    (∀ (chars : String) (yieldArg : Option Int), chars ≠ "" →
      writeStdinYieldMs chars yieldArg = clampYieldTime (yieldArg.getD 250) 250 30000) := by
  refine ⟨?_, ?_, rfl, ?_, ?_⟩
  · intro x mn mx h
    refine ⟨?_, ?_, ?_⟩ <;>
      · intros
        unfold clampYieldTime
        omega
  · intro yieldArg
    refine ⟨rfl, ?_, ?_⟩ <;>
      · unfold execYieldMs clampYieldTime parseNumberArg MinYieldTimeMs MaxYieldTimeMs
          DefaultExecYieldMs
        omega
  · intro yieldArg
    rw [writeStdinYieldMs, if_pos rfl]
    rfl
  · intro chars yieldArg h
    rw [writeStdinYieldMs, if_neg h]
    rfl

/-- Witness for C6 at concrete inputs. -/
theorem yield_time_clamping_witness :
    (clampYieldTime 100 250 30000 = 250) ∧
    (clampYieldTime 99999 250 30000 = 30000) ∧
    (clampYieldTime 700 250 30000 = 700) ∧
    writeStdinYieldMs "q" (some 100) = clampYieldTime 100 250 30000 :=
  ⟨(yield_time_clamping.1 100 250 30000 (by decide)).1 (by decide),
   (yield_time_clamping.1 99999 250 30000 (by decide)).2.1 (by decide),
   (yield_time_clamping.1 700 250 30000 (by decide)).2.2 (by decide) (by decide),
   yield_time_clamping.2.2.2.2 "q" (some 100) (by decide)⟩

/-- The fields of tools.ToolOutput that formatExecResponse populates (the
tools package is not under src; the fields are fixed by their uses in the
handler file). -/
structure ToolOutput where
  content : String
  success : Option Bool
  deriving Repr, DecidableEq

/-- `formatExecResponse` (handler file lines 560-579).  The wall-time value
is abstracted as its pre-rendered seconds string (Go renders "%.3f"). -/
def formatExecResponse (output : String) (wallStr : String) (exitCode : Option Int)
    (sessionID : String) : ToolOutput :=
  { content :=
      "--- Wall time: " ++ wallStr ++ "s ---\n" ++
      (match exitCode with
       | some c => "--- Exit code: " ++ toString c ++ " ---\n"
       | none => "") ++
      (if sessionID ≠ "" then "--- Session ID: " ++ sessionID ++ " ---\n" else "") ++
      "--- Output ---\n" ++ output
    success := some (match exitCode with
       | none => true
       | some c => c == 0) }

/-- The response branch of handleExecCommand (lines 477-484): an exited
process reports its exit code with no session id; a still-running process is
stored and reports its session id with no exit code. -/
def execCommandResponse (hasExited : Bool) (exitCode : Int) (processID : String)
    (output wallStr : String) : ToolOutput :=
  if hasExited then formatExecResponse output wallStr (some exitCode) ""
  else formatExecResponse output wallStr none processID

/-- The response branch of handleWriteStdin (lines 546-551), identical in
shape to the exec_command one. -/
def writeStdinResponse (hasExited : Bool) (exitCode : Int) (sessionID : String)
    (output wallStr : String) : ToolOutput :=
  if hasExited then formatExecResponse output wallStr (some exitCode) ""
  else formatExecResponse output wallStr none sessionID

/-- C10: formatExecResponse reports success exactly when the exit code is
absent or zero; a still-running exec_command or write_stdin response has
success = true and consists of the wall-time line, a Session ID line and the
output section with no Exit code line, while an exited one has an Exit code
line and no Session ID line, succeeding exactly when the exit code is 0. -/
theorem exec_response_format :
    (∀ (output wallStr : String) (exitCode : Option Int) (sessionID : String),
      (formatExecResponse output wallStr exitCode sessionID).success = some true ↔
        (exitCode = none ∨ exitCode = some 0)) ∧
    (∀ (exitCode : Int) (processID : String) (output wallStr : String), processID ≠ "" →
      ((execCommandResponse false exitCode processID output wallStr).success = some true ∧
       (execCommandResponse false exitCode processID output wallStr).content =
         "--- Wall time: " ++ wallStr ++ "s ---\n" ++
         ("--- Session ID: " ++ processID ++ " ---\n") ++
         "--- Output ---\n" ++ output ∧
       (writeStdinResponse false exitCode processID output wallStr).content =
         "--- Wall time: " ++ wallStr ++ "s ---\n" ++
         ("--- Session ID: " ++ processID ++ " ---\n") ++
         "--- Output ---\n" ++ output)) ∧
    (∀ (exitCode : Int) (processID : String) (output wallStr : String),
      (execCommandResponse true exitCode processID output wallStr).content =
        "--- Wall time: " ++ wallStr ++ "s ---\n" ++
        ("--- Exit code: " ++ toString exitCode ++ " ---\n") ++
        "--- Output ---\n" ++ output ∧
      ((execCommandResponse true exitCode processID output wallStr).success = some true ↔
        exitCode = 0) ∧
      (writeStdinResponse true exitCode processID output wallStr).content =
        "--- Wall time: " ++ wallStr ++ "s ---\n" ++
        ("--- Exit code: " ++ toString exitCode ++ " ---\n") ++
        "--- Output ---\n" ++ output) := by
  refine ⟨?_, ?_, ?_⟩
  · intro output wallStr exitCode sessionID
    cases exitCode <;> simp [formatExecResponse]
  · intro exitCode processID output wallStr h
    refine ⟨rfl, ?_, ?_⟩
    · rw [execCommandResponse, if_neg (by simp), formatExecResponse]
      dsimp only
      rw [if_pos h, String.append_empty]
    · rw [writeStdinResponse, if_neg (by simp), formatExecResponse]
      dsimp only
      rw [if_pos h, String.append_empty]
  · intro exitCode processID output wallStr
    refine ⟨?_, ?_, ?_⟩
    · rw [execCommandResponse, if_pos rfl, formatExecResponse]
      dsimp only
      rw [if_neg (fun hh => hh rfl), String.append_empty]
    · rw [execCommandResponse, if_pos rfl]
      simp [formatExecResponse]
    · rw [writeStdinResponse, if_pos rfl, formatExecResponse]
      dsimp only
      rw [if_neg (fun hh => hh rfl), String.append_empty]

/-- Witness for C10 at a concrete still-running session. -/
theorem exec_response_format_witness :
    (execCommandResponse false 0 "1234" "hello" "1.000").success = some true ∧
    (execCommandResponse false 0 "1234" "hello" "1.000").content =
      "--- Wall time: " ++ "1.000" ++ "s ---\n" ++
      ("--- Session ID: " ++ "1234" ++ " ---\n") ++
      "--- Output ---\n" ++ "hello" ∧
    (writeStdinResponse false 0 "1234" "hello" "1.000").content =
      "--- Wall time: " ++ "1.000" ++ "s ---\n" ++
      ("--- Session ID: " ++ "1234" ++ " ---\n") ++
      "--- Output ---\n" ++ "hello" :=
  exec_response_format.2.1 0 "1234" "hello" "1.000" (by decide)

end Handlers
